import Mathlib

/-!
Verification of the resource-graph materialization engine of a JSON:API
client data layer (`src/pinia-json-api.ts`).

The engine is shallowly embedded: JavaScript objects live on an explicit
heap addressed by allocation numbers (so that reference identity and
in-place mutation are observable), JS `Map`s are insertion-ordered
association lists with replace-in-place `set`, thrown exceptions are
`Except String`, and the external fetcher is abstracted by passing the
document it returned as an explicit argument.
-/

namespace PiniaJsonApi

/-! ## JS values and association lists (JS `Map` / plain-object semantics) -/

/-- A JavaScript runtime value as it appears in attribute payloads and
record fields: `undefined`, `null`, strings, numbers, booleans. -/
inductive JsValue where
  | undef
  | null
  | str (s : String)
  | num (n : Int)
  | bool (b : Bool)
  deriving Repr, DecidableEq

/-- A value held in a field of a record: a plain JS value, a reference to
another record (heap address), or an array of references. -/
inductive FieldValue where
  | val (v : JsValue)
  | ref (a : Nat)
  | refs (l : List Nat)
  deriving Repr, DecidableEq

/-- Insertion-ordered association list modelling a JS `Map` (or a plain
object used as a string-keyed dictionary). -/
abbrev AList (α β : Type) := List (α × β)

/-- Models `Map.get` / property read: first binding wins. -/
def alistGet {α β : Type} [DecidableEq α] : AList α β → α → Option β
  | [], _ => none
  | (k, v) :: rest, k' => if k = k' then some v else alistGet rest k'

/-- Models `Map.set` / property write: replaces the existing binding in place,
otherwise appends (preserving JS insertion order). -/
def alistSet {α β : Type} [DecidableEq α] : AList α β → α → β → AList α β
  | [], k, v => [(k, v)]
  | (k0, v0) :: rest, k, v =>
    if k0 = k then (k0, v) :: rest else (k0, v0) :: alistSet rest k v

/-- Models `Map.has`. -/
def alistHas {α β : Type} [DecidableEq α] (m : AList α β) (k : α) : Bool :=
  (alistGet m k).isSome

/-! ## Wire format (`src/json-api.ts`) -/

/-- Models `JsonApiResourceIdentifier`: `{id, type}`. -/
structure JsonApiResourceIdentifier where
  id : String
  type : String
  deriving Repr, DecidableEq

/-- The `data` member of a wire relationship: `null`, a single resource
identifier, or an array of identifiers.  The TypeScript code casts this
unchecked, so all three shapes can reach the materializer. -/
inductive RelData where
  | null
  | one (r : JsonApiResourceIdentifier)
  | many (l : List JsonApiResourceIdentifier)
  deriving Repr, DecidableEq

/-- Models `JsonApiRelationship`: `{data: null | identifier | identifier[]}`. -/
structure JsonApiRelationship where
  data : RelData
  deriving Repr, DecidableEq

/-- Models `JsonApiResource`: `{id, type, attributes, relationships?}`.
Attribute payloads keep `Object.entries` order; a value can be an explicit
JS `undefined`.  `attributes` itself may be absent at runtime (the TS type
is produced by an unchecked cast from JSON). -/
structure JsonApiResource where
  id : String
  type : String
  attributes : Option (List (String × JsValue))
  relationships : Option (List (String × JsonApiRelationship))
  deriving Repr, DecidableEq

/-- The `data` member of a document: absent, one resource, or an array. -/
inductive DocData where
  | none
  | one (r : JsonApiResource)
  | many (l : List JsonApiResource)
  deriving Repr, DecidableEq

/-- Models `JsonApiDocument` (the members the engine consumes). -/
structure JsonApiDocument where
  data : DocData
  included : Option (List JsonApiResource)
  deriving Repr, DecidableEq

/-! ## Model definitions and store configuration (`src/pinia-json-api.ts`) -/

/-- Model constructors are identified by a number (JS identifies them by
object identity of the constructor function). -/
abbrev CtorId := Nat

/-- Models `RelationshipType` enum. -/
inductive RelationshipType where
  | hasMany
  | belongsTo
  deriving Repr, DecidableEq

/-- Models `Relationship`: `{ctor, type}`. -/
structure Relationship where
  ctor : CtorId
  type : RelationshipType
  deriving Repr, DecidableEq

/-- Models `ModelDefinition`: `{type, ctor, rels?}`. -/
structure ModelDefinition where
  type : String
  ctor : CtorId
  rels : Option (AList String Relationship)
  deriving Repr, DecidableEq

/-- Models `PiniaJsonApiStoreConfig` (the members the engine consumes). -/
structure Config where
  modelDefinitions : List ModelDefinition
  kebabCase : Bool
  deriving Repr, DecidableEq

/-- Models `modelRegistry`: ctor → type, built by the registration loop in
`definePiniaJsonApiStore`. -/
def modelRegistry (cfg : Config) : AList CtorId String :=
  cfg.modelDefinitions.foldl (fun m d => alistSet m d.ctor d.type) []

/-- Models `modelsByType`: type → ctor. -/
def modelsByType (cfg : Config) : AList String CtorId :=
  cfg.modelDefinitions.foldl (fun m d => alistSet m d.type d.ctor) []

/-- Models `relsRegistry`: ctor → declared relationships; only model definitions
that carry a `rels` member are registered. -/
def relsRegistry (cfg : Config) : AList CtorId (AList String Relationship) :=
  cfg.modelDefinitions.foldl
    (fun m d => match d.rels with
      | some r => alistSet m d.ctor r
      | none => m) []

/-! ## Heap, records and store state -/

/-- A `Model` instance (a record).  The constructor ctor is remembered
(JS `record.constructor`); all data properties, including `id` set by the
`Model` constructor, live in `fields`. -/
structure ModelObj where
  ctor : CtorId
  fields : AList String FieldValue
  deriving Repr, DecidableEq

/-- Mutable store state: an allocation counter, the heap of live record
objects, and the per-type identity map `recordsByType : type → id → record`.
Buckets hold heap addresses (JS holds object references). -/
structure Store where
  nextAlloc : Nat
  heap : AList Nat ModelObj
  recordsByType : AList String (AList String Nat)
  deriving Repr, DecidableEq

/-- The registration loop seeds an empty identity-map bucket for every
registered type. -/
def initRecordsByType (cfg : Config) : AList String (AList String Nat) :=
  cfg.modelDefinitions.foldl (fun m d => alistSet m d.type []) []

/-- Store state immediately after `definePiniaJsonApiStore` ran. -/
def initStore (cfg : Config) : Store :=
  { nextAlloc := 0, heap := [], recordsByType := initRecordsByType cfg }

/-- Look up the identity-mapped record address for a `(type, id)` pair. -/
def lookupRec (s : Store) (t i : String) : Option Nat :=
  (alistGet s.recordsByType t).bind (fun bucket => alistGet bucket i)

/-! ## `camel` (kebab-case conversion) -/

/-- The character class `[a-zà-öø-þ]` of the `camel`
regular expression. -/
def isCamelTarget (c : Char) : Bool :=
  ('a' ≤ c && c ≤ 'z') || ('à' ≤ c && c ≤ 'ö') || ('ø' ≤ c && c ≤ 'þ')

/-- JS `toUpperCase` on the characters matched by the class above: all of
them map down by 0x20. -/
def toUpperJs (c : Char) : Char :=
  Char.ofNat (c.toNat - 0x20)

/-- Global regex replacement of `-x` (x in the class) by uppercase `x`,
scanning left to right. -/
def camelChars : List Char → List Char
  | [] => []
  | '-' :: c :: rest =>
    if isCamelTarget c then toUpperJs c :: camelChars rest
    else '-' :: camelChars (c :: rest)
  | c :: rest => c :: camelChars rest
termination_by l => l.length
decreasing_by all_goals simp_wf <;> omega

/-- Models `camel(str)`: converts kebab-case only when the store is configured
with `kebabCase`. -/
def camel (cfg : Config) (s : String) : String :=
  if cfg.kebabCase then String.mk (camelChars s.data) else s

/-! ## Lookup helpers (each throws on a missing registration) -/

/-- Models `getModelType(ctor)`. -/
def getModelType (cfg : Config) (ctor : CtorId) : Except String String :=
  match alistGet (modelRegistry cfg) ctor with
  | some t => .ok t
  | none => .error "Model not defined"

/-- Models `getModel(type)`. -/
def getModel (cfg : Config) (t : String) : Except String CtorId :=
  match alistGet (modelsByType cfg) t with
  | some c => .ok c
  | none => .error "Model with name not defined"

/-- Models `getRecords(type)`. -/
def getRecords (s : Store) (t : String) : Except String (AList String Nat) :=
  match alistGet s.recordsByType t with
  | some records => .ok records
  | none => .error "Model with name not defined"

/-- Models `getRecord(records, id)`. -/
def getRecord (records : AList String Nat) (id : String) : Except String Nat :=
  match alistGet records id with
  | some a => .ok a
  | none => .error "Record with id not found"

/-- Models `getResourceRecord(resource)`. -/
def getResourceRecord (s : Store) (resource : JsonApiResource) : Except String Nat := do
  let recordsMap ← getRecords s resource.type
  getRecord recordsMap resource.id

/-! ## `internalCreateRecord` -/

/-- The property-application loop of `internalCreateRecord`:
`for ([key, value] of Object.entries(properties)) if (value !== undefined)
record[camel(key)] = value`. -/
def applyProperties (cfg : Config) (fields : AList String FieldValue) :
    List (String × JsValue) → AList String FieldValue
  | [] => fields
  | (k, v) :: rest =>
    applyProperties cfg
      (if v = JsValue.undef then fields else alistSet fields (camel cfg k) (.val v)) rest

/-- Models `if (properties) for (...) ...`: the property loop runs only when a
properties object was passed. -/
def applyPropsOpt (cfg : Config) (fields : AList String FieldValue) :
    Option (List (String × JsValue)) → AList String FieldValue
  | some props => applyProperties cfg fields props
  | none => fields

/-- Models `internalCreateRecord(ctor, id, properties?)`: reuse the identity-mapped
instance for `(type, id)` if present, otherwise allocate `new ctor(id)`
(whose constructor sets the `id` property); apply the defined properties;
re-`set` the binding. -/
def internalCreateRecord (cfg : Config) (s : Store) (ctor : CtorId) (id : String)
    (properties : Option (List (String × JsValue))) : Except String (Nat × Store) := do
  let t ← getModelType cfg ctor
  let recordMap ← getRecords s t
  match alistGet recordMap id with
  | some a =>
    match alistGet s.heap a with
    | some obj =>
      .ok (a, { s with
        heap := alistSet s.heap a { obj with fields := applyPropsOpt cfg obj.fields properties },
        recordsByType := alistSet s.recordsByType t (alistSet recordMap id a) })
    | none => .error "dangling record reference"
  | none =>
    let a := s.nextAlloc
    let obj : ModelObj :=
      { ctor := ctor, fields := applyPropsOpt cfg [("id", .val (.str id))] properties }
    .ok (a, { s with
      nextAlloc := a + 1,
      heap := alistSet s.heap a obj,
      recordsByType := alistSet s.recordsByType t (alistSet recordMap id a) })

/-! ## Relationship population (the link pass of `resourcesToRecords`) -/

/-- JS property access `d.id` on an element of the relationship-data list:
an identifier yields its id, an array yields `undefined`, and `null`
throws a `TypeError`. -/
def ridId : RelData → Except String (Option String)
  | .null => .error "TypeError: Cannot read properties of null"
  | .one r => .ok (some r.id)
  | .many _ => .ok none

/-- Models `rids.filter((d) => relTypeRecords.has(d.id)).map((d) =>
getRecord(relTypeRecords, d.id))`: identifiers that do not resolve in the
target-type bucket are dropped; the rest resolve in order. -/
def resolveRids (records : AList String Nat) : List RelData → Except String (List Nat)
  | [] => .ok []
  | d :: rest => do
    let oid ← ridId d
    let rest' ← resolveRids records rest
    match oid with
    | some i =>
      match alistGet records i with
      | some a => .ok (a :: rest')
      | none => .ok rest'
    | none => .ok rest'

/-- The assigned value
`rel.type === HasMany ? relRecords : relRecords[0]`; indexing an empty
array yields `undefined`. -/
def relAssignValue (rt : RelationshipType) (relRecords : List Nat) : FieldValue :=
  match rt with
  | .hasMany => .refs relRecords
  | .belongsTo =>
    match relRecords with
    | [] => .val .undef
    | a :: _ => .ref a

/-- Models `record[normalizedName] = ...`: in-place mutation of a record object on
the heap.  The address always comes from the identity map, so a missing
heap entry is a dangling reference (impossible in JS, where the map holds
the object itself). -/
def setField (s : Store) (a : Nat) (name : String) (v : FieldValue) : Except String Store :=
  match alistGet s.heap a with
  | some obj =>
    .ok { s with heap := alistSet s.heap a { obj with fields := alistSet obj.fields name v } }
  | none => .error "dangling record reference"

/-- One iteration of the `for ([name, reldoc] of
Object.entries(resource.relationships))` loop in `populateRelationships`. -/
def populateRelationshipEntry (cfg : Config) (s : Store) (recordAddr : Nat)
    (recordCtor : CtorId) (entry : String × JsonApiRelationship) : Except String Store :=
  match alistGet (relsRegistry cfg) recordCtor with
  -- NOTE in source: if relationship is not defined but exists in data, it is ignored
  | none => .ok s
  | some rels =>
    let normalizedName := camel cfg entry.1
    match alistGet rels normalizedName with
    | none => .error "Relationship not defined"
    | some rel => do
      let relType ← getModelType cfg rel.ctor
      match alistGet s.recordsByType relType with
      | none => .ok s
      | some relTypeRecords => do
        -- rel.type === HasMany ? (reldoc.data as identifier[]) : [reldoc.data]
        -- (the HasMany cast is unchecked: non-array data fails at `.filter`)
        let rids : List RelData ←
          match rel.type, entry.2.data with
          | .hasMany, .many l => .ok (l.map RelData.one)
          | .hasMany, _ => .error "TypeError: data has no filter method"
          | .belongsTo, d => .ok [d]
        let relRecords ← resolveRids relTypeRecords rids
        setField s recordAddr normalizedName (relAssignValue rel.type relRecords)

/-- The loop body of `populateRelationships` over all wire relationship
entries of one resource. -/
def populateEntries (cfg : Config) (recordAddr : Nat) (recordCtor : CtorId) :
    Store → List (String × JsonApiRelationship) → Except String Store
  | s, [] => .ok s
  | s, e :: rest => do
    let s' ← populateRelationshipEntry cfg s recordAddr recordCtor e
    populateEntries cfg recordAddr recordCtor s' rest

/-- Models `populateRelationships(resource)`. -/
def populateRelationships (cfg : Config) (s : Store) (resource : JsonApiResource) :
    Except String Store := do
  let record ← getResourceRecord s resource
  let recordCtor ← getModel cfg resource.type
  match resource.relationships with
  | none => .ok s
  | some entries => populateEntries cfg record recordCtor s entries

/-! ## `resourcesToRecords` -/

/-- The included-resources loop: `for (resource of included)
createRecord(resource)` where the local `createRecord` resolves the model
from the resource's own wire type. -/
def createIncludedRecords (cfg : Config) : Store → List JsonApiResource → Except String Store
  | s, [] => .ok s
  | s, r :: rest => do
    let c ← getModel cfg r.type
    let (_, s') ← internalCreateRecord cfg s c r.id r.attributes
    createIncludedRecords cfg s' rest

/-- The main-resources pass:
`resources.map((r) => internalCreateRecord(ctor, r.id, r.attributes))` —
the caller-supplied `ctor`, not the wire type, is used here.  Also reused
for the `related.map(...)` loop of `findRelated`, which has the same
shape. -/
def createRecordsWith (cfg : Config) (ctor : CtorId) :
    Store → List JsonApiResource → Except String (List Nat × Store)
  | s, [] => .ok ([], s)
  | s, r :: rest => do
    let (a, s') ← internalCreateRecord cfg s ctor r.id r.attributes
    let (rest', s'') ← createRecordsWith cfg ctor s' rest
    .ok (a :: rest', s'')

/-- Models `resources.map(populateRelationships)` / `included.map(populateRelationships)`. -/
def populateAll (cfg : Config) : Store → List JsonApiResource → Except String Store
  | s, [] => .ok s
  | s, r :: rest => do
    let s' ← populateRelationships cfg s r
    populateAll cfg s' rest

/-- Models `resourcesToRecords(ctor, resources, included?)`: materialize included
resources, then main resources, then (only when `included` was supplied)
run the link pass over main and included resources. -/
def resourcesToRecords (cfg : Config) (s : Store) (ctor : CtorId)
    (resources : List JsonApiResource) (included : Option (List JsonApiResource)) :
    Except String (List Nat × Store) := do
  let s1 ← match included with
    | some incl => createIncludedRecords cfg s incl
    | none => .ok s
  let (records, s2) ← createRecordsWith cfg ctor s1 resources
  let s3 ← match included with
    | some incl => do
      let sa ← populateAll cfg s2 resources
      populateAll cfg sa incl
    | none => .ok s2
  .ok (records, s3)

/-! ## Store operations -/

/-- Models `findAll(ctor)`: the fetched document is passed explicitly in place of
the `await _fetcher.fetchDocument(...)` round trip; its `data` is cast to
a resource array. -/
def findAll (cfg : Config) (s : Store) (ctor : CtorId) (doc : JsonApiDocument) :
    Except String (List Nat × Store) := do
  let _t ← getModelType cfg ctor
  let resources ← match doc.data with
    | .many l => .ok l
    | _ => .error "TypeError: data is not an array"
  resourcesToRecords cfg s ctor resources doc.included

/-- Models `findRecord(ctor, id)`: cache-first; on a miss the fetched document
(passed explicitly) is materialized and the result bound at `id`.  The
returned `Bool` records which branch ran: `true` iff the fetcher was
consulted. -/
def findRecord (cfg : Config) (s : Store) (ctor : CtorId) (id : String)
    (doc : JsonApiDocument) : Except String (Nat × Store × Bool) := do
  let t ← getModelType cfg ctor
  let recordsMap ← getRecords s t
  let (s', fetched) ←
    if alistHas recordsMap id then .ok (s, false)
    else do
      let resource ← match doc.data with
        | .one r => .ok r
        | _ => .error "TypeError: data is not a single resource"
      let (records, s1) ← resourcesToRecords cfg s ctor [resource] doc.included
      match records with
      | a :: _ =>
        -- recordsMap.set(id, record) on the live bucket of the updated store
        let bucket := (alistGet s1.recordsByType t).getD []
        .ok ({ s1 with recordsByType := alistSet s1.recordsByType t (alistSet bucket id a) },
          true)
      | [] => .error "Record with id not found"
  -- const record = recordsMap.get(id); if (!record) throw
  match alistGet ((alistGet s'.recordsByType t).getD []) id with
  | some a => .ok (a, s', fetched)
  | none => .error "Record with id not found"

/-- Models `findRelated(record, name)`: resolve the declared relationship on the
record's own constructor, materialize the fetched document's data under the
relationship's target model, and assign the result onto `record[name]`.
(After the belongs-to early return, `rel.type` is necessarily `HasMany`,
so the trailing conditionals of the source collapse to the has-many case.) -/
def findRelated (cfg : Config) (s : Store) (recordAddr : Nat) (name : String)
    (doc : JsonApiDocument) : Except String Store := do
  let obj ← match alistGet s.heap recordAddr with
    | some o => .ok o
    | none => .error "dangling record reference"
  let ctor := obj.ctor
  let _t ← getModelType cfg ctor
  let rels ← match alistGet (relsRegistry cfg) ctor with
    | some r => .ok r
    | none => .error "Model has no relationships"
  let rel ← match alistGet rels name with
    | some r => .ok r
    | none => .error "Has many relationship not defined"
  match rel.type with
  | .belongsTo => do
    let related ← match doc.data with
      | .one r => .ok r
      | _ => .error "TypeError: data is not a single resource"
    let (a, s') ← internalCreateRecord cfg s rel.ctor related.id related.attributes
    setField s' recordAddr name (.ref a)
  | .hasMany => do
    let related ← match doc.data with
      | .many l => .ok l
      | _ => .error "TypeError: data is not an array"
    let (addrs, s') ← createRecordsWith cfg rel.ctor s related
    setField s' recordAddr name (.refs addrs)

/-- Models `unloadAll()`: `for (records of recordsByType.values()) records.clear()` —
every per-type bucket is emptied in place; the buckets themselves remain. -/
def unloadAll (s : Store) : Store :=
  { s with recordsByType := s.recordsByType.map (fun kv => (kv.1, ([] : AList String Nat))) }

/-! ## Call sequences of the public read API -/

/-- One public read call, carrying the document its fetch returned. -/
inductive Op where
  | findRecordOp (ctor : CtorId) (id : String) (doc : JsonApiDocument)
  | findAllOp (ctor : CtorId) (doc : JsonApiDocument)
  deriving Repr, DecidableEq

/-- Run one call for its store effect. -/
def runOp (cfg : Config) (s : Store) : Op → Except String Store
  | .findRecordOp c i d => (findRecord cfg s c i d).map (fun r => r.2.1)
  | .findAllOp c d => (findAll cfg s c d).map Prod.snd

/-- Run a sequence of calls. -/
def runOps (cfg : Config) : Store → List Op → Except String Store
  | s, [] => .ok s
  | s, op :: rest => do runOps cfg (← runOp cfg s op) rest

/-! ## Specification-side helper definitions -/

/-- The last value a property list assigns to result key `k` (later
`Object.entries` occurrences overwrite earlier ones; `undefined` values
are skipped by `internalCreateRecord`). -/
def lastAssigned (cfg : Config) (k : String) : List (String × JsValue) → Option JsValue
  | [] => none
  | (k0, v0) :: rest =>
    match lastAssigned cfg k rest with
    | some v => some v
    | none => if camel cfg k0 = k ∧ v0 ≠ JsValue.undef then some v0 else none

/-- The record addresses referenced by a field value. -/
def refsOf : FieldValue → List Nat
  | .val _ => []
  | .ref a => [a]
  | .refs l => l

/-- Every relationship reference stored in any live record points at a
record that is currently identity-mapped under some `(type, id)`. -/
def RefsBound (s : Store) : Prop :=
  ∀ a obj, alistGet s.heap a = some obj →
    ∀ k fv, alistGet obj.fields k = some fv →
      ∀ b, b ∈ refsOf fv → ∃ t i, lookupRec s t i = some b

/-- Fetcher contract for a call: a single-resource fetch for `id` answers
with a primary resource carrying that id (`fetchDocument(type, id)`). -/
def opWf : Op → Prop
  | .findRecordOp _ i d => ∀ r, d.data = DocData.one r → r.id = i
  | .findAllOp _ _ => True

/-- Identity-map stability between two store states: every `(type, id)`
binding of the first state is present unchanged in the second. -/
def BindingMono (s s' : Store) : Prop :=
  ∀ t i a, lookupRec s t i = some a → lookupRec s' t i = some a

/-- Heap evolution that only writes plain attribute values: every field of
every record in the second state either already held the same value in the
first state or holds a `FieldValue.val`. -/
def HeapExtends (s s' : Store) : Prop :=
  ∀ addr obj', alistGet s'.heap addr = some obj' →
    ∀ k fv, alistGet obj'.fields k = some fv →
      (∃ obj, alistGet s.heap addr = some obj ∧ alistGet obj.fields k = some fv) ∨
        ∃ v, fv = FieldValue.val v

/-- Heap-domain monotonicity: live records stay live. -/
def HeapMono (s s' : Store) : Prop :=
  ∀ addr, (alistGet s.heap addr).isSome → (alistGet s'.heap addr).isSome

/-- Allocation freshness: every live heap address is below the allocation
counter (true of every store reachable from `initStore`). -/
def HeapFresh (s : Store) : Prop :=
  ∀ addr, (alistGet s.heap addr).isSome → addr < s.nextAlloc

/-- Field-level preservation: every field value a record held in the first
state is still there in the second, unless it was overwritten by a plain
attribute value. -/
def FieldsPreserved (s s' : Store) : Prop :=
  ∀ addr obj obj' k fv, alistGet s.heap addr = some obj →
    alistGet s'.heap addr = some obj' → alistGet obj.fields k = some fv →
      alistGet obj'.fields k = some fv ∨ ∃ v, alistGet obj'.fields k = some (FieldValue.val v)

/-! ## Concrete fixtures (used by witnesses and counterexamples)

The canonical articles fixture of the repository's test suite: model
constructors 0 = `Person`, 1 = `Comment`, 2 = `Article`; `Article`
declares `author` (belongs-to `person`) and `comments` (has-many
`comment`). -/

def articlesConfig : Config :=
  { modelDefinitions := [
      { type := "person", ctor := 0, rels := none },
      { type := "comment", ctor := 1, rels := none },
      { type := "article", ctor := 2, rels := some [
          ("author", { ctor := 0, type := .belongsTo }),
          ("comments", { ctor := 1, type := .hasMany })] }],
    kebabCase := false }

def personResource : JsonApiResource :=
  { id := "9", type := "person",
    attributes := some [("firstName", .str "Dan")], relationships := none }

def commentResource1 : JsonApiResource :=
  { id := "5", type := "comment",
    attributes := some [("body", .str "First!")], relationships := none }

def commentResource2 : JsonApiResource :=
  { id := "12", type := "comment",
    attributes := some [("body", .str "I like XML better")], relationships := none }

def articleResource : JsonApiResource :=
  { id := "1", type := "article",
    attributes := some [("title", .str "JSON:API paints my bikeshed!")],
    relationships := some [
      ("author", { data := .one { id := "9", type := "person" } }),
      ("comments", { data := .many [{ id := "5", type := "comment" },
        { id := "12", type := "comment" }] })] }

def articleDoc : JsonApiDocument :=
  { data := .one articleResource,
    included := some [personResource, commentResource1, commentResource2] }

/-- An article whose `author` belongs-to relationship carries `data: null`. -/
def nullAuthorResource : JsonApiResource :=
  { id := "1", type := "article", attributes := some [],
    relationships := some [("author", { data := .null })] }

def nullAuthorDoc : JsonApiDocument :=
  { data := .one nullAuthorResource, included := some [] }

/-- An article carrying a wire relationship name the model never declared. -/
def unknownRelResource : JsonApiResource :=
  { id := "1", type := "article", attributes := some [],
    relationships := some [("frobs", { data := .many [] })] }

def unknownRelDoc : JsonApiDocument :=
  { data := .one unknownRelResource, included := some [] }

/-- A single-model configuration (ctor 0, type `"a"`, no relationships). -/
def oneModelConfig : Config :=
  { modelDefinitions := [{ type := "a", ctor := 0, rels := none }], kebabCase := false }

def w1Resource : JsonApiResource :=
  { id := "1", type := "a", attributes := some [("t", .str "x")], relationships := none }

def w1Doc : JsonApiDocument := { data := .one w1Resource, included := none }

/-- The store after `findRecord(A, "1")` materialized `w1Resource` into a
fresh `oneModelConfig` store. -/
def w1Store : Store :=
  { nextAlloc := 1,
    heap := [(0, { ctor := 0, fields := [("id", .val (.str "1")), ("t", .val (.str "x"))] })],
    recordsByType := [("a", [("1", 0)])] }

/-- A two-model configuration for the double-materialization scenario:
ctor 0 has type `"a"`, ctor 1 has type `"b"`. -/
def twoModelConfig : Config :=
  { modelDefinitions := [
      { type := "a", ctor := 0, rels := none },
      { type := "b", ctor := 1, rels := none }],
    kebabCase := false }

/-- A resource whose wire type (`"b"`) differs from the type registered
for the ctor a caller passes to `resourcesToRecords`. -/
def sharedResource : JsonApiResource :=
  { id := "1", type := "b", attributes := some [], relationships := none }

/-- Models `w1Store` after one more materialization applying `{a: 1}`. -/
def c2s1 : Store :=
  { nextAlloc := 1,
    heap := [(0, { ctor := 0, fields := [("id", .val (.str "1")), ("t", .val (.str "x")),
      ("a", .val (.num 1))] })],
    recordsByType := [("a", [("1", 0)])] }

/-- Models `c2s1` after a further materialization applying `{b: 2}`. -/
def c2s2 : Store :=
  { nextAlloc := 1,
    heap := [(0, { ctor := 0, fields := [("id", .val (.str "1")), ("t", .val (.str "x")),
      ("a", .val (.num 1)), ("b", .val (.num 2))] })],
    recordsByType := [("a", [("1", 0)])] }

/-- Models `w1Store` after materializing `{t: "y"}` for the same record. -/
def c6Store : Store :=
  { nextAlloc := 1,
    heap := [(0, { ctor := 0, fields := [("id", .val (.str "1")), ("t", .val (.str "y"))] })],
    recordsByType := [("a", [("1", 0)])] }

/-- The store after `unloadAll w1Store` and a re-fetch of `(a, "1")`: a new
instance (address 1) is allocated; the unloaded instance at address 0 is
still on the heap but no longer identity-mapped. -/
def c8Store : Store :=
  { nextAlloc := 2,
    heap := [
      (0, { ctor := 0, fields := [("id", .val (.str "1")), ("t", .val (.str "x"))] }),
      (1, { ctor := 0, fields := [("id", .val (.str "1")), ("t", .val (.str "x"))] })],
    recordsByType := [("a", [("1", 1)])] }

/-- The store produced by materializing `sharedResource` as both an
included and a primary resource with ctor 0: the included pass created
record 0 under type `"b"`, the main pass created a second record 1 under
ctor 0's type `"a"`. -/
def c9Store : Store :=
  { nextAlloc := 2,
    heap := [
      (0, { ctor := 1, fields := [("id", .val (.str "1"))] }),
      (1, { ctor := 0, fields := [("id", .val (.str "1"))] })],
    recordsByType := [("a", [("1", 1)]), ("b", [("1", 0)])] }

/-- A document whose shape `findRecord` never inspects on a cache hit. -/
def garbageDoc : JsonApiDocument := { data := .none, included := none }

/-- A well-formed shared resource: its wire type matches the type
registered for the ctor passed to `resourcesToRecords`. -/
def c9GoodResource : JsonApiResource :=
  { id := "1", type := "a", attributes := some [], relationships := none }

/-- The store after materializing `c9GoodResource` (whether as included,
as primary, or as both): exactly one record exists. -/
def c9GoodStore : Store :=
  { nextAlloc := 1,
    heap := [(0, { ctor := 0, fields := [("id", .val (.str "1"))] })],
    recordsByType := [("a", [("1", 0)])] }

/-- Models `articlesStore` after the link pass assigned `comments`: comment `"12"`
is unresolvable and filtered out, leaving only the record at address 1. -/
def c5Store : Store :=
  { nextAlloc := 3,
    heap := [
      (0, { ctor := 2, fields := [("id", .val (.str "1")), ("comments", .refs [1])] }),
      (1, { ctor := 1, fields := [("id", .val (.str "5")), ("body", .val (.str "First!"))] }),
      (2, { ctor := 0, fields := [("id", .val (.str "9")), ("firstName", .val (.str "Dan"))] })],
    recordsByType := [("person", [("9", 2)]), ("comment", [("5", 1)]), ("article", [("1", 0)])] }

/-- Models `articlesStore` after `findRelated(article, "author")` re-fetched the
already-materialized person `"9"`: the existing instance (address 2) is
reused and assigned. -/
def c10aStore : Store :=
  { nextAlloc := 3,
    heap := [
      (0, { ctor := 2, fields := [("id", .val (.str "1")), ("author", .ref 2)] }),
      (1, { ctor := 1, fields := [("id", .val (.str "5")), ("body", .val (.str "First!"))] }),
      (2, { ctor := 0, fields := [("id", .val (.str "9")), ("firstName", .val (.str "Dan"))] })],
    recordsByType := [("person", [("9", 2)]), ("comment", [("5", 1)]), ("article", [("1", 0)])] }

/-- Models `articlesStore` after `findRelated(article, "comments")` fetched
comments `"5"` and `"12"`: `"5"` keeps its instance (address 1), `"12"` is
new (address 3), and both are assigned in document order. -/
def c10bStore : Store :=
  { nextAlloc := 4,
    heap := [
      (0, { ctor := 2, fields := [("id", .val (.str "1")), ("comments", .refs [1, 3])] }),
      (1, { ctor := 1, fields := [("id", .val (.str "5")), ("body", .val (.str "First!"))] }),
      (2, { ctor := 0, fields := [("id", .val (.str "9")), ("firstName", .val (.str "Dan"))] }),
      (3, { ctor := 1, fields := [("id", .val (.str "12")), ("body", .val (.str "I like XML better"))] })],
    recordsByType := [("person", [("9", 2)]), ("comment", [("5", 1), ("12", 3)]), ("article", [("1", 0)])] }

/-- A store over `articlesConfig` holding one article record (address 0),
one comment record (address 1, id `"5"`) and one person record
(address 2, id `"9"`); comment `"12"` is not materialized. -/
def articlesStore : Store :=
  { nextAlloc := 3,
    heap := [
      (0, { ctor := 2, fields := [("id", .val (.str "1"))] }),
      (1, { ctor := 1, fields := [("id", .val (.str "5")), ("body", .val (.str "First!"))] }),
      (2, { ctor := 0, fields := [("id", .val (.str "9")), ("firstName", .val (.str "Dan"))] })],
    recordsByType := [("person", [("9", 2)]), ("comment", [("5", 1)]), ("article", [("1", 0)])] }

/-! ## Association-list lemmas -/

theorem alistGet_set_self {α β : Type} [DecidableEq α] (m : AList α β) (k : α) (v : β) :
    alistGet (alistSet m k v) k = some v := by
  induction m with
  | nil => simp [alistSet, alistGet]
  | cons kv rest ih =>
    obtain ⟨k0, v0⟩ := kv
    by_cases h : k0 = k
    · simp [alistSet, h, alistGet]
    · simp [alistSet, h, alistGet, ih]

theorem alistGet_set_ne {α β : Type} [DecidableEq α] (m : AList α β) (k k' : α) (v : β)
    (h : k ≠ k') : alistGet (alistSet m k v) k' = alistGet m k' := by
  induction m with
  | nil => simp [alistSet, alistGet, h]
  | cons kv rest ih =>
    obtain ⟨k0, v0⟩ := kv
    by_cases h0 : k0 = k
    · subst h0
      simp [alistSet, alistGet, h]
    · simp [alistSet, h0, alistGet, ih]

theorem alistSet_same {α β : Type} [DecidableEq α] (m : AList α β) (k : α) (v : β)
    (h : alistGet m k = some v) : alistSet m k v = m := by
  induction m with
  | nil => simp [alistGet] at h
  | cons kv rest ih =>
    obtain ⟨k0, v0⟩ := kv
    by_cases h0 : k0 = k
    · subst h0
      simp [alistGet] at h
      simp [alistSet, h]
    · simp [alistGet, h0] at h
      simp [alistSet, h0, ih h]

theorem alistHas_iff {α β : Type} [DecidableEq α] (m : AList α β) (k : α) :
    alistHas m k = true ↔ ∃ v, alistGet m k = some v := by
  unfold alistHas
  cases h : alistGet m k <;> simp [Option.isSome]

/-! ## Attribute-merge lemmas (`applyProperties`) -/

theorem applyProperties_get (cfg : Config) (props : List (String × JsValue)) :
    ∀ fields k, alistGet (applyProperties cfg fields props) k =
      match lastAssigned cfg k props with
      | some v => some (.val v)
      | none => alistGet fields k := by
  induction props with
  | nil => intro fields k; simp [applyProperties, lastAssigned]
  | cons p rest ih =>
    intro fields k
    obtain ⟨k0, v0⟩ := p
    show alistGet (applyProperties cfg _ rest) k = _
    rw [ih]
    cases hrest : lastAssigned cfg k rest with
    | some v => simp [lastAssigned, hrest]
    | none =>
      simp only [lastAssigned, hrest]
      by_cases hu : v0 = JsValue.undef
      · simp [hu]
      · by_cases hk : camel cfg k0 = k
        · simp [hu, hk, alistGet_set_self]
        · simp [hu, hk, alistGet_set_ne _ _ _ _ hk]

theorem applyProperties_val (cfg : Config) (props : List (String × JsValue))
    (fields : AList String FieldValue) (k : String) (fv : FieldValue)
    (h : alistGet (applyProperties cfg fields props) k = some fv) :
    alistGet fields k = some fv ∨ ∃ v, fv = FieldValue.val v := by
  rw [applyProperties_get] at h
  cases hl : lastAssigned cfg k props with
  | some v =>
    rw [hl] at h
    exact Or.inr ⟨v, (Option.some_injective _ h).symm⟩
  | none =>
    rw [hl] at h
    exact Or.inl h

theorem applyPropsOpt_val (cfg : Config) (props : Option (List (String × JsValue)))
    (fields : AList String FieldValue) (k : String) (fv : FieldValue)
    (h : alistGet (applyPropsOpt cfg fields props) k = some fv) :
    alistGet fields k = some fv ∨ ∃ v, fv = FieldValue.val v := by
  cases props with
  | some p => exact applyProperties_val cfg p fields k fv h
  | none => exact Or.inl h

/-! ## `internalCreateRecord` lemmas -/

/-- Forward evaluation, cache-hit case: the existing instance is reused and
mutated in place; the identity map and the allocation counter do not
change. -/
theorem internalCreateRecord_reuse (cfg : Config) (s : Store) (ctor : CtorId) (id : String)
    (props : Option (List (String × JsValue))) (t : String) (bucket : AList String Nat)
    (a : Nat) (obj : ModelObj)
    (ht : getModelType cfg ctor = .ok t) (hb : alistGet s.recordsByType t = some bucket)
    (ha : alistGet bucket id = some a) (hobj : alistGet s.heap a = some obj) :
    internalCreateRecord cfg s ctor id props =
      .ok (a, { s with
        heap := alistSet s.heap a { obj with fields := applyPropsOpt cfg obj.fields props } }) := by
  simp only [internalCreateRecord, getRecords, Bind.bind, Except.bind, ht, hb, ha, hobj]
  rw [alistSet_same _ _ _ ha, alistSet_same _ _ _ hb]

/-- Forward evaluation, cache-miss case: a fresh instance is allocated and
bound. -/
theorem internalCreateRecord_fresh (cfg : Config) (s : Store) (ctor : CtorId) (id : String)
    (props : Option (List (String × JsValue))) (t : String) (bucket : AList String Nat)
    (ht : getModelType cfg ctor = .ok t) (hb : alistGet s.recordsByType t = some bucket)
    (ha : alistGet bucket id = none) :
    internalCreateRecord cfg s ctor id props =
      .ok (s.nextAlloc, { s with
        nextAlloc := s.nextAlloc + 1,
        heap := alistSet s.heap s.nextAlloc
          ⟨ctor, applyPropsOpt cfg [("id", .val (.str id))] props⟩,
        recordsByType := alistSet s.recordsByType t (alistSet bucket id s.nextAlloc) }) := by
  simp only [internalCreateRecord, getRecords, Bind.bind, Except.bind, ht, hb, ha]

/-- Inversion: a successful `internalCreateRecord` either reused the
identity-mapped instance (mutating it in place, identity map untouched) or
allocated a fresh one and bound it. -/
theorem internalCreateRecord_ok (cfg : Config) (s : Store) (ctor : CtorId) (id : String)
    (props : Option (List (String × JsValue))) (r : Nat) (s' : Store)
    (h : internalCreateRecord cfg s ctor id props = .ok (r, s')) :
    ∃ t bucket, getModelType cfg ctor = .ok t ∧ alistGet s.recordsByType t = some bucket ∧
      ((∃ obj, alistGet bucket id = some r ∧ alistGet s.heap r = some obj ∧
          s' = { s with
            heap := alistSet s.heap r
              { obj with fields := applyPropsOpt cfg obj.fields props } }) ∨
       (alistGet bucket id = none ∧ r = s.nextAlloc ∧
          s' = { s with
            nextAlloc := s.nextAlloc + 1,
            heap := alistSet s.heap s.nextAlloc
              ⟨ctor, applyPropsOpt cfg [("id", .val (.str id))] props⟩,
            recordsByType := alistSet s.recordsByType t (alistSet bucket id s.nextAlloc) })) := by
  cases ht : getModelType cfg ctor with
  | error e =>
    simp only [internalCreateRecord, Bind.bind, Except.bind, ht] at h
    exact Except.noConfusion h
  | ok t =>
    cases hb : alistGet s.recordsByType t with
    | none =>
      simp only [internalCreateRecord, getRecords, Bind.bind, Except.bind, ht, hb] at h
      exact Except.noConfusion h
    | some bucket =>
      refine ⟨t, bucket, rfl, hb, ?_⟩
      cases ha : alistGet bucket id with
      | some a =>
        cases hobj : alistGet s.heap a with
        | none =>
          simp only [internalCreateRecord, getRecords, Bind.bind, Except.bind,
            ht, hb, ha, hobj] at h
          exact Except.noConfusion h
        | some obj =>
          rw [internalCreateRecord_reuse cfg s ctor id props t bucket a obj ht hb ha hobj] at h
          simp only [Except.ok.injEq, Prod.mk.injEq] at h
          obtain ⟨hr, hs⟩ := h
          subst hr
          exact Or.inl ⟨obj, rfl, hobj, hs.symm⟩
      | none =>
        rw [internalCreateRecord_fresh cfg s ctor id props t bucket ht hb ha] at h
        simp only [Except.ok.injEq, Prod.mk.injEq] at h
        obtain ⟨hr, hs⟩ := h
        subst hr
        exact Or.inr ⟨rfl, rfl, hs.symm⟩

/-- Every `(type, id)` binding present in the identity map before an
`internalCreateRecord` call is still present, with the same record address,
afterwards: materialization never replaces an identity-mapped instance. -/
theorem internalCreateRecord_preserves_binding (cfg : Config) (s : Store) (ctor : CtorId)
    (id : String) (props : Option (List (String × JsValue))) (r : Nat) (s' : Store)
    (h : internalCreateRecord cfg s ctor id props = .ok (r, s'))
    (t' i' : String) (a' : Nat) (hb' : lookupRec s t' i' = some a') :
    lookupRec s' t' i' = some a' := by
  obtain ⟨t, bucket, ht, hb, hcase⟩ := internalCreateRecord_ok _ _ _ _ _ _ _ h
  rcases hcase with ⟨obj, ha, hobj, rfl⟩ | ⟨ha, hr, rfl⟩
  · exact hb'
  · by_cases hts : t = t'
    · subst hts
      have hii : i' ≠ id := by
        intro hid
        subst hid
        simp only [lookupRec, hb, Option.some_bind, ha] at hb'
        exact Option.noConfusion hb'
      simp only [lookupRec, hb, Option.some_bind] at hb'
      simp only [lookupRec, alistGet_set_self, Option.some_bind]
      rw [alistGet_set_ne _ _ _ _ (Ne.symm hii)]
      exact hb'
    · simp only [lookupRec] at hb' ⊢
      rw [alistGet_set_ne _ _ _ _ hts]
      exact hb'

/-- After a successful `internalCreateRecord`, the returned record is what
the identity map binds at `(type, id)`. -/
theorem internalCreateRecord_result_binding (cfg : Config) (s : Store) (ctor : CtorId)
    (id : String) (props : Option (List (String × JsValue))) (r : Nat) (s' : Store)
    (t : String)
    (h : internalCreateRecord cfg s ctor id props = .ok (r, s'))
    (ht : getModelType cfg ctor = .ok t) :
    lookupRec s' t id = some r := by
  obtain ⟨t0, bucket, ht0, hb, hcase⟩ := internalCreateRecord_ok _ _ _ _ _ _ _ h
  rw [ht] at ht0
  obtain rfl : t0 = t := (Except.ok.injEq _ _).mp ht0.symm
  rcases hcase with ⟨obj, ha, hobj, rfl⟩ | ⟨ha, hr, rfl⟩
  · simp only [lookupRec, hb, Option.some_bind]
    exact ha
  · subst hr
    simp only [lookupRec, alistGet_set_self, Option.some_bind]

/-- Every field of every record on the heap after `internalCreateRecord`
either already held the same value before the call or holds a plain
attribute value: materialization never writes relationship references. -/
theorem internalCreateRecord_heap_fields (cfg : Config) (s : Store) (ctor : CtorId)
    (id : String) (props : Option (List (String × JsValue))) (r : Nat) (s' : Store)
    (h : internalCreateRecord cfg s ctor id props = .ok (r, s'))
    (addr : Nat) (obj' : ModelObj) (hobj' : alistGet s'.heap addr = some obj')
    (k : String) (fv : FieldValue) (hfv : alistGet obj'.fields k = some fv) :
    (∃ obj, alistGet s.heap addr = some obj ∧ alistGet obj.fields k = some fv) ∨
      ∃ v, fv = FieldValue.val v := by
  obtain ⟨t, bucket, ht, hb, hcase⟩ := internalCreateRecord_ok _ _ _ _ _ _ _ h
  rcases hcase with ⟨obj, ha, hobj, rfl⟩ | ⟨ha, hr, rfl⟩
  · by_cases haddr : r = addr
    · subst haddr
      rw [alistGet_set_self] at hobj'
      obtain rfl : { obj with fields := applyPropsOpt cfg obj.fields props } = obj' :=
        Option.some_injective _ hobj'
      rcases applyPropsOpt_val cfg props obj.fields k fv hfv with hold | hval
      · exact Or.inl ⟨obj, hobj, hold⟩
      · exact Or.inr hval
    · rw [alistGet_set_ne _ _ _ _ haddr] at hobj'
      exact Or.inl ⟨obj', hobj', hfv⟩
  · subst hr
    by_cases haddr : s.nextAlloc = addr
    · subst haddr
      rw [alistGet_set_self] at hobj'
      obtain rfl :
          (⟨ctor, applyPropsOpt cfg [("id", FieldValue.val (.str id))] props⟩ : ModelObj)
            = obj' :=
        Option.some_injective _ hobj'
      rcases applyPropsOpt_val cfg props _ k fv hfv with hold | hval
      · right
        refine ⟨JsValue.str id, ?_⟩
        by_cases hk : "id" = k
        · subst hk
          simpa [alistGet] using hold.symm
        · simp [alistGet, hk] at hold
      · exact Or.inr hval
    · rw [alistGet_set_ne _ _ _ _ haddr] at hobj'
      exact Or.inl ⟨obj', hobj', hfv⟩

/-! ## Relation plumbing -/

theorem HeapExtends_refl (s : Store) : HeapExtends s s :=
  fun _ obj' h1 _ _ h2 => Or.inl ⟨obj', h1, h2⟩

theorem HeapExtends_trans {s1 s2 s3 : Store} (h12 : HeapExtends s1 s2)
    (h23 : HeapExtends s2 s3) : HeapExtends s1 s3 := by
  intro addr obj' h1 k fv h2
  rcases h23 addr obj' h1 k fv h2 with ⟨obj2, hobj2, hfv2⟩ | hval
  · exact h12 addr obj2 hobj2 k fv hfv2
  · exact Or.inr hval

theorem BindingMono_refl (s : Store) : BindingMono s s := fun _ _ _ h => h

theorem BindingMono_trans {s1 s2 s3 : Store} (h12 : BindingMono s1 s2)
    (h23 : BindingMono s2 s3) : BindingMono s1 s3 :=
  fun t i a h => h23 t i a (h12 t i a h)

theorem HeapMono_refl (s : Store) : HeapMono s s := fun _ h => h

theorem HeapMono_trans {s1 s2 s3 : Store} (h12 : HeapMono s1 s2)
    (h23 : HeapMono s2 s3) : HeapMono s1 s3 :=
  fun addr h => h23 addr (h12 addr h)

theorem internalCreateRecord_bindingMono (cfg : Config) (s : Store) (ctor : CtorId)
    (id : String) (props : Option (List (String × JsValue))) (r : Nat) (s' : Store)
    (h : internalCreateRecord cfg s ctor id props = .ok (r, s')) : BindingMono s s' :=
  fun t i a hb => internalCreateRecord_preserves_binding cfg s ctor id props r s' h t i a hb

theorem internalCreateRecord_heapExtends (cfg : Config) (s : Store) (ctor : CtorId)
    (id : String) (props : Option (List (String × JsValue))) (r : Nat) (s' : Store)
    (h : internalCreateRecord cfg s ctor id props = .ok (r, s')) : HeapExtends s s' :=
  fun addr obj' h1 k fv h2 =>
    internalCreateRecord_heap_fields cfg s ctor id props r s' h addr obj' h1 k fv h2

theorem internalCreateRecord_heapMono (cfg : Config) (s : Store) (ctor : CtorId)
    (id : String) (props : Option (List (String × JsValue))) (r : Nat) (s' : Store)
    (h : internalCreateRecord cfg s ctor id props = .ok (r, s')) : HeapMono s s' := by
  intro addr hs
  obtain ⟨t, bucket, ht, hb, hcase⟩ := internalCreateRecord_ok _ _ _ _ _ _ _ h
  rcases hcase with ⟨obj, ha, hobj, rfl⟩ | ⟨ha, hr, rfl⟩
  · show (alistGet (alistSet s.heap r _) addr).isSome
    by_cases haddr : r = addr
    · subst haddr; rw [alistGet_set_self]; rfl
    · rw [alistGet_set_ne _ _ _ _ haddr]; exact hs
  · show (alistGet (alistSet s.heap s.nextAlloc _) addr).isSome
    by_cases haddr : s.nextAlloc = addr
    · subst haddr; rw [alistGet_set_self]; rfl
    · rw [alistGet_set_ne _ _ _ _ haddr]; exact hs

/-! ## Loop lemmas for the materialize pass -/

theorem createRecordsWith_bindingMono (cfg : Config) (c : CtorId) :
    ∀ (rs : List JsonApiResource) (s : Store) (addrs : List Nat) (s' : Store),
      createRecordsWith cfg c s rs = .ok (addrs, s') → BindingMono s s' := by
  intro rs
  induction rs with
  | nil =>
    intro s addrs s' h
    simp only [createRecordsWith, Except.ok.injEq, Prod.mk.injEq] at h
    rw [← h.2]
    exact BindingMono_refl s
  | cons r rest ih =>
    intro s addrs s' h
    simp only [createRecordsWith, Bind.bind, Except.bind] at h
    cases h1 : internalCreateRecord cfg s c r.id r.attributes with
    | error e => rw [h1] at h; exact Except.noConfusion h
    | ok p =>
      obtain ⟨a, s1⟩ := p
      rw [h1] at h
      dsimp only at h
      cases h2 : createRecordsWith cfg c s1 rest with
      | error e => rw [h2] at h; exact Except.noConfusion h
      | ok q =>
        obtain ⟨rest', s2⟩ := q
        rw [h2] at h
        simp only [Except.ok.injEq, Prod.mk.injEq] at h
        rw [← h.2]
        exact BindingMono_trans (internalCreateRecord_bindingMono cfg s c r.id r.attributes a s1 h1)
          (ih s1 rest' s2 h2)

theorem createRecordsWith_heapExtends (cfg : Config) (c : CtorId) :
    ∀ (rs : List JsonApiResource) (s : Store) (addrs : List Nat) (s' : Store),
      createRecordsWith cfg c s rs = .ok (addrs, s') → HeapExtends s s' := by
  intro rs
  induction rs with
  | nil =>
    intro s addrs s' h
    simp only [createRecordsWith, Except.ok.injEq, Prod.mk.injEq] at h
    rw [← h.2]
    exact HeapExtends_refl s
  | cons r rest ih =>
    intro s addrs s' h
    simp only [createRecordsWith, Bind.bind, Except.bind] at h
    cases h1 : internalCreateRecord cfg s c r.id r.attributes with
    | error e => rw [h1] at h; exact Except.noConfusion h
    | ok p =>
      obtain ⟨a, s1⟩ := p
      rw [h1] at h
      dsimp only at h
      cases h2 : createRecordsWith cfg c s1 rest with
      | error e => rw [h2] at h; exact Except.noConfusion h
      | ok q =>
        obtain ⟨rest', s2⟩ := q
        rw [h2] at h
        simp only [Except.ok.injEq, Prod.mk.injEq] at h
        rw [← h.2]
        exact HeapExtends_trans (internalCreateRecord_heapExtends cfg s c r.id r.attributes a s1 h1)
          (ih s1 rest' s2 h2)

theorem createRecordsWith_heapMono (cfg : Config) (c : CtorId) :
    ∀ (rs : List JsonApiResource) (s : Store) (addrs : List Nat) (s' : Store),
      createRecordsWith cfg c s rs = .ok (addrs, s') → HeapMono s s' := by
  intro rs
  induction rs with
  | nil =>
    intro s addrs s' h
    simp only [createRecordsWith, Except.ok.injEq, Prod.mk.injEq] at h
    rw [← h.2]
    exact HeapMono_refl s
  | cons r rest ih =>
    intro s addrs s' h
    simp only [createRecordsWith, Bind.bind, Except.bind] at h
    cases h1 : internalCreateRecord cfg s c r.id r.attributes with
    | error e => rw [h1] at h; exact Except.noConfusion h
    | ok p =>
      obtain ⟨a, s1⟩ := p
      rw [h1] at h
      dsimp only at h
      cases h2 : createRecordsWith cfg c s1 rest with
      | error e => rw [h2] at h; exact Except.noConfusion h
      | ok q =>
        obtain ⟨rest', s2⟩ := q
        rw [h2] at h
        simp only [Except.ok.injEq, Prod.mk.injEq] at h
        rw [← h.2]
        exact HeapMono_trans (internalCreateRecord_heapMono cfg s c r.id r.attributes a s1 h1)
          (ih s1 rest' s2 h2)

theorem createIncludedRecords_bindingMono (cfg : Config) :
    ∀ (rs : List JsonApiResource) (s : Store) (s' : Store),
      createIncludedRecords cfg s rs = .ok s' → BindingMono s s' := by
  intro rs
  induction rs with
  | nil =>
    intro s s' h
    simp only [createIncludedRecords, Except.ok.injEq] at h
    rw [← h]
    exact BindingMono_refl s
  | cons r rest ih =>
    intro s s' h
    simp only [createIncludedRecords, Bind.bind, Except.bind] at h
    cases h0 : getModel cfg r.type with
    | error e => rw [h0] at h; exact Except.noConfusion h
    | ok c =>
      rw [h0] at h
      dsimp only at h
      cases h1 : internalCreateRecord cfg s c r.id r.attributes with
      | error e => rw [h1] at h; exact Except.noConfusion h
      | ok p =>
        obtain ⟨a, s1⟩ := p
        rw [h1] at h
        dsimp only at h
        exact BindingMono_trans (internalCreateRecord_bindingMono cfg s c r.id r.attributes a s1 h1)
          (ih s1 s' h)

/-! ## Link-pass lemmas -/

/-- Models `lookupRec` only reads the identity map. -/
theorem lookupRec_congr {s s' : Store} (h : s'.recordsByType = s.recordsByType)
    (t i : String) : lookupRec s' t i = lookupRec s t i := by
  unfold lookupRec
  rw [h]

/-- Every record address produced by the filter-and-resolve step is bound
in the target-type bucket it was resolved against. -/
theorem resolveRids_bound (records : AList String Nat) :
    ∀ (rids : List RelData) (l : List Nat), resolveRids records rids = .ok l →
      ∀ b ∈ l, ∃ i, alistGet records i = some b := by
  intro rids
  induction rids with
  | nil =>
    intro l h b hb
    simp only [resolveRids, Except.ok.injEq] at h
    rw [← h] at hb
    exact absurd hb (List.not_mem_nil b)
  | cons d rest ih =>
    intro l h b hb
    simp only [resolveRids, Bind.bind, Except.bind] at h
    cases hd : ridId d with
    | error e => rw [hd] at h; exact Except.noConfusion h
    | ok oid =>
      rw [hd] at h
      dsimp only at h
      cases hrest : resolveRids records rest with
      | error e => rw [hrest] at h; exact Except.noConfusion h
      | ok rest' =>
        rw [hrest] at h
        dsimp only at h
        cases oid with
        | none =>
          simp only [Except.ok.injEq] at h
          rw [← h] at hb
          exact ih rest' hrest b hb
        | some i =>
          dsimp only at h
          cases hg : alistGet records i with
          | some a =>
            rw [hg] at h
            simp only [Except.ok.injEq] at h
            rw [← h] at hb
            rcases List.mem_cons.mp hb with rfl | hmem
            · exact ⟨i, hg⟩
            · exact ih rest' hrest b hmem
          | none =>
            rw [hg] at h
            simp only [Except.ok.injEq] at h
            rw [← h] at hb
            exact ih rest' hrest b hb

/-- The references stored by a relationship assignment are among the
resolved record addresses. -/
theorem refsOf_relAssignValue (rt : RelationshipType) (l : List Nat) (b : Nat)
    (hb : b ∈ refsOf (relAssignValue rt l)) : b ∈ l := by
  cases rt with
  | hasMany => exact hb
  | belongsTo =>
    cases l with
    | nil => exact absurd hb (List.not_mem_nil b)
    | cons a rest =>
      simp only [relAssignValue, refsOf, List.mem_singleton] at hb
      rw [hb]
      exact List.mem_cons_self a rest

/-- Inversion for `setField`. -/
theorem setField_ok (s : Store) (a : Nat) (n : String) (v : FieldValue) (s' : Store)
    (h : setField s a n v = .ok s') :
    ∃ obj, alistGet s.heap a = some obj ∧
      s' = { s with heap := alistSet s.heap a { obj with fields := alistSet obj.fields n v } } := by
  unfold setField at h
  cases hobj : alistGet s.heap a with
  | none => rw [hobj] at h; exact Except.noConfusion h
  | some obj =>
    rw [hobj] at h
    simp only [Except.ok.injEq] at h
    exact ⟨obj, rfl, h.symm⟩

/-- The resolve-and-assign tail of a link-pass iteration writes one field
whose references are all identity-mapped. -/
theorem linkAssign_cases (s : Store) (addr : Nat) (nn relType : String)
    (rt : RelationshipType) (relTypeRecords : AList String Nat)
    (hbk : alistGet s.recordsByType relType = some relTypeRecords)
    (rids : List RelData) (relRecords : List Nat) (s' : Store)
    (hres : resolveRids relTypeRecords rids = .ok relRecords)
    (h : setField s addr nn (relAssignValue rt relRecords) = .ok s') :
    ∃ n v obj, alistGet s.heap addr = some obj ∧
      s' = { s with heap := alistSet s.heap addr { obj with fields := alistSet obj.fields n v } } ∧
      ∀ b ∈ refsOf v, ∃ t i, lookupRec s t i = some b := by
  obtain ⟨obj, hobj, rfl⟩ := setField_ok _ _ _ _ _ h
  refine ⟨nn, relAssignValue rt relRecords, obj, hobj, rfl, ?_⟩
  intro b hb
  obtain ⟨i, hi⟩ := resolveRids_bound relTypeRecords rids relRecords hres b
    (refsOf_relAssignValue rt relRecords b hb)
  exact ⟨relType, i, by simp only [lookupRec, hbk, Option.some_bind]; exact hi⟩

/-- Inversion for one link-pass iteration: either nothing happened (the
skip paths) or exactly one field of the owning record was overwritten with
a value whose references are all identity-mapped in the current store. -/
theorem populateRelationshipEntry_ok_cases (cfg : Config) (s : Store) (addr : Nat)
    (rc : CtorId) (entry : String × JsonApiRelationship) (s' : Store)
    (h : populateRelationshipEntry cfg s addr rc entry = .ok s') :
    s' = s ∨ ∃ n v obj, alistGet s.heap addr = some obj ∧
      s' = { s with heap := alistSet s.heap addr { obj with fields := alistSet obj.fields n v } } ∧
      ∀ b ∈ refsOf v, ∃ t i, lookupRec s t i = some b := by
  unfold populateRelationshipEntry at h
  cases hr : alistGet (relsRegistry cfg) rc with
  | none =>
    rw [hr] at h
    simp only [Except.ok.injEq] at h
    exact Or.inl h.symm
  | some rels =>
    rw [hr] at h
    dsimp only at h
    cases hrel : alistGet rels (camel cfg entry.1) with
    | none => rw [hrel] at h; exact Except.noConfusion h
    | some rel =>
      rw [hrel] at h
      dsimp only at h
      cases hmt : getModelType cfg rel.ctor with
      | error e =>
        rw [hmt] at h
        simp only [Bind.bind, Except.bind] at h
        exact Except.noConfusion h
      | ok relType =>
        rw [hmt] at h
        simp only [Bind.bind, Except.bind] at h
        cases hbk : alistGet s.recordsByType relType with
        | none =>
          rw [hbk] at h
          simp only [Except.ok.injEq] at h
          exact Or.inl h.symm
        | some relTypeRecords =>
          rw [hbk] at h
          dsimp only at h
          cases hrt : rel.type with
          | hasMany =>
            cases hd : entry.2.data with
            | null =>
              rw [hrt, hd] at h
              dsimp only at h
              exact Except.noConfusion h
            | one rr =>
              rw [hrt, hd] at h
              dsimp only at h
              exact Except.noConfusion h
            | many lst =>
              rw [hrt, hd] at h
              dsimp only at h
              cases hres : resolveRids relTypeRecords (lst.map RelData.one) with
              | error e => rw [hres] at h; exact Except.noConfusion h
              | ok relRecords =>
                rw [hres] at h
                dsimp only at h
                exact Or.inr (linkAssign_cases s addr (camel cfg entry.1) relType
                  RelationshipType.hasMany relTypeRecords hbk _ relRecords s' hres h)
          | belongsTo =>
            rw [hrt] at h
            dsimp only at h
            cases hres : resolveRids relTypeRecords [entry.2.data] with
            | error e => rw [hres] at h; exact Except.noConfusion h
            | ok relRecords =>
              rw [hres] at h
              dsimp only at h
              exact Or.inr (linkAssign_cases s addr (camel cfg entry.1) relType
                RelationshipType.belongsTo relTypeRecords hbk _ relRecords s' hres h)

/-- One link-pass iteration leaves the identity map untouched and keeps
every stored reference identity-mapped. -/
theorem populateRelationshipEntry_props (cfg : Config) (s : Store) (addr : Nat)
    (rc : CtorId) (entry : String × JsonApiRelationship) (s' : Store)
    (h : populateRelationshipEntry cfg s addr rc entry = .ok s') :
    s'.recordsByType = s.recordsByType ∧ (RefsBound s → RefsBound s') := by
  rcases populateRelationshipEntry_ok_cases cfg s addr rc entry s' h with
    rfl | ⟨n, v, obj, hobj, rfl, hrefs⟩
  · exact ⟨rfl, id⟩
  · refine ⟨rfl, ?_⟩
    intro hrb a2 obj2 hobj2 k fv hfv b hb
    show ∃ t i, lookupRec { s with heap := _ } t i = some b
    by_cases haddr : addr = a2
    · subst haddr
      rw [alistGet_set_self] at hobj2
      obtain rfl := Option.some_injective _ hobj2
      by_cases hk : n = k
      · subst hk
        rw [alistGet_set_self] at hfv
        obtain rfl := Option.some_injective _ hfv
        exact hrefs b hb
      · rw [alistGet_set_ne _ _ _ _ hk] at hfv
        exact hrb addr obj hobj k fv hfv b hb
    · rw [alistGet_set_ne _ _ _ _ haddr] at hobj2
      exact hrb a2 obj2 hobj2 k fv hfv b hb

theorem populateEntries_props (cfg : Config) (addr : Nat) (rc : CtorId) :
    ∀ (entries : List (String × JsonApiRelationship)) (s s' : Store),
      populateEntries cfg addr rc s entries = .ok s' →
      s'.recordsByType = s.recordsByType ∧ (RefsBound s → RefsBound s') := by
  intro entries
  induction entries with
  | nil =>
    intro s s' h
    simp only [populateEntries, Except.ok.injEq] at h
    rw [← h]
    exact ⟨rfl, id⟩
  | cons e rest ih =>
    intro s s' h
    simp only [populateEntries, Bind.bind, Except.bind] at h
    cases h1 : populateRelationshipEntry cfg s addr rc e with
    | error err => rw [h1] at h; exact Except.noConfusion h
    | ok s1 =>
      rw [h1] at h
      dsimp only at h
      obtain ⟨hm1, hr1⟩ := populateRelationshipEntry_props cfg s addr rc e s1 h1
      obtain ⟨hm2, hr2⟩ := ih s1 s' h
      exact ⟨hm2.trans hm1, fun hrb => hr2 (hr1 hrb)⟩

theorem populateRelationships_props (cfg : Config) (s : Store) (resource : JsonApiResource)
    (s' : Store) (h : populateRelationships cfg s resource = .ok s') :
    s'.recordsByType = s.recordsByType ∧ (RefsBound s → RefsBound s') := by
  unfold populateRelationships at h
  simp only [Bind.bind, Except.bind] at h
  cases h0 : getResourceRecord s resource with
  | error e => rw [h0] at h; exact Except.noConfusion h
  | ok addr =>
    rw [h0] at h
    dsimp only at h
    cases h1 : getModel cfg resource.type with
    | error e => rw [h1] at h; exact Except.noConfusion h
    | ok rc =>
      rw [h1] at h
      dsimp only at h
      cases hrel : resource.relationships with
      | none =>
        rw [hrel] at h
        simp only [Except.ok.injEq] at h
        rw [← h]
        exact ⟨rfl, id⟩
      | some entries =>
        rw [hrel] at h
        dsimp only at h
        exact populateEntries_props cfg addr rc entries s s' h

theorem populateAll_props (cfg : Config) :
    ∀ (rs : List JsonApiResource) (s s' : Store), populateAll cfg s rs = .ok s' →
      s'.recordsByType = s.recordsByType ∧ (RefsBound s → RefsBound s') := by
  intro rs
  induction rs with
  | nil =>
    intro s s' h
    simp only [populateAll, Except.ok.injEq] at h
    rw [← h]
    exact ⟨rfl, id⟩
  | cons r rest ih =>
    intro s s' h
    simp only [populateAll, Bind.bind, Except.bind] at h
    cases h1 : populateRelationships cfg s r with
    | error err => rw [h1] at h; exact Except.noConfusion h
    | ok s1 =>
      rw [h1] at h
      dsimp only at h
      obtain ⟨hm1, hr1⟩ := populateRelationships_props cfg s r s1 h1
      obtain ⟨hm2, hr2⟩ := ih s1 s' h
      exact ⟨hm2.trans hm1, fun hrb => hr2 (hr1 hrb)⟩

/-! ## `resourcesToRecords` composition lemmas -/

/-- With no `included` payload the call is exactly the main materialize
pass: no link pass runs. -/
theorem resourcesToRecords_none (cfg : Config) (s : Store) (ctor : CtorId)
    (resources : List JsonApiResource) :
    resourcesToRecords cfg s ctor resources Option.none =
      createRecordsWith cfg ctor s resources := by
  cases hc : createRecordsWith cfg ctor s resources with
  | error e => simp [resourcesToRecords, Bind.bind, Except.bind, hc]
  | ok p => simp [resourcesToRecords, Bind.bind, Except.bind, hc]

/-- Inversion for the included case: included materialize pass, main
materialize pass, link pass over main resources, link pass over included
resources, in that order. -/
theorem resourcesToRecords_some_ok (cfg : Config) (s : Store) (ctor : CtorId)
    (resources incl : List JsonApiResource) (records : List Nat) (s' : Store)
    (h : resourcesToRecords cfg s ctor resources (some incl) = .ok (records, s')) :
    ∃ s1 s2 sa, createIncludedRecords cfg s incl = .ok s1 ∧
      createRecordsWith cfg ctor s1 resources = .ok (records, s2) ∧
      populateAll cfg s2 resources = .ok sa ∧
      populateAll cfg sa incl = .ok s' := by
  unfold resourcesToRecords at h
  simp only [Bind.bind, Except.bind] at h
  cases h1 : createIncludedRecords cfg s incl with
  | error e => rw [h1] at h; exact Except.noConfusion h
  | ok s1 =>
    rw [h1] at h
    dsimp only at h
    cases h2 : createRecordsWith cfg ctor s1 resources with
    | error e => rw [h2] at h; exact Except.noConfusion h
    | ok p =>
      obtain ⟨recs2, s2⟩ := p
      rw [h2] at h
      dsimp only at h
      cases h3 : populateAll cfg s2 resources with
      | error e => rw [h3] at h; exact Except.noConfusion h
      | ok sa =>
        rw [h3] at h
        dsimp only at h
        cases h4 : populateAll cfg sa incl with
        | error e => rw [h4] at h; exact Except.noConfusion h
        | ok sb =>
          rw [h4] at h
          simp only [Except.ok.injEq, Prod.mk.injEq] at h
          obtain ⟨rfl, rfl⟩ := h
          exact ⟨s1, s2, sa, rfl, h2, h3, h4⟩

/-- Materialization (with or without `included`) never replaces an
identity-mapped instance. -/
theorem resourcesToRecords_bindingMono (cfg : Config) (s : Store) (ctor : CtorId)
    (resources : List JsonApiResource) (included : Option (List JsonApiResource))
    (records : List Nat) (s' : Store)
    (h : resourcesToRecords cfg s ctor resources included = .ok (records, s')) :
    BindingMono s s' := by
  cases included with
  | none =>
    rw [resourcesToRecords_none] at h
    exact createRecordsWith_bindingMono cfg ctor resources s records s' h
  | some incl =>
    obtain ⟨s1, s2, sa, h1, h2, h3, h4⟩ := resourcesToRecords_some_ok _ _ _ _ _ _ _ h
    have e3 := (populateAll_props cfg resources s2 sa h3).1
    have e4 := (populateAll_props cfg incl sa s' h4).1
    refine BindingMono_trans (BindingMono_trans (createIncludedRecords_bindingMono cfg incl s s1 h1)
      (createRecordsWith_bindingMono cfg ctor resources s1 records s2 h2)) ?_
    intro t i a hb
    rw [lookupRec_congr (e4.trans e3) t i]
    exact hb

/-- A step that only writes attribute values and never unbinds records
keeps all stored references identity-mapped. -/
theorem RefsBound_of {s s' : Store} (hrb : RefsBound s) (hbm : BindingMono s s')
    (hhe : HeapExtends s s') : RefsBound s' := by
  intro a obj' h1 k fv h2 b hb
  rcases hhe a obj' h1 k fv h2 with ⟨obj, ho, hf⟩ | ⟨v, rfl⟩
  · obtain ⟨t, i, ht⟩ := hrb a obj ho k fv hf b hb
    exact ⟨t, i, hbm t i b ht⟩
  · exact absurd hb (List.not_mem_nil b)

theorem createIncludedRecords_heapExtends (cfg : Config) :
    ∀ (rs : List JsonApiResource) (s : Store) (s' : Store),
      createIncludedRecords cfg s rs = .ok s' → HeapExtends s s' := by
  intro rs
  induction rs with
  | nil =>
    intro s s' h
    simp only [createIncludedRecords, Except.ok.injEq] at h
    rw [← h]
    exact HeapExtends_refl s
  | cons r rest ih =>
    intro s s' h
    simp only [createIncludedRecords, Bind.bind, Except.bind] at h
    cases h0 : getModel cfg r.type with
    | error e => rw [h0] at h; exact Except.noConfusion h
    | ok c =>
      rw [h0] at h
      dsimp only at h
      cases h1 : internalCreateRecord cfg s c r.id r.attributes with
      | error e => rw [h1] at h; exact Except.noConfusion h
      | ok p =>
        obtain ⟨a, s1⟩ := p
        rw [h1] at h
        dsimp only at h
        exact HeapExtends_trans (internalCreateRecord_heapExtends cfg s c r.id r.attributes a s1 h1)
          (ih s1 s' h)

/-- Materialization keeps every stored relationship reference
identity-mapped. -/
theorem resourcesToRecords_refsBound (cfg : Config) (s : Store) (ctor : CtorId)
    (resources : List JsonApiResource) (included : Option (List JsonApiResource))
    (records : List Nat) (s' : Store)
    (h : resourcesToRecords cfg s ctor resources included = .ok (records, s'))
    (hrb : RefsBound s) : RefsBound s' := by
  cases included with
  | none =>
    rw [resourcesToRecords_none] at h
    exact RefsBound_of hrb (createRecordsWith_bindingMono cfg ctor resources s records s' h)
      (createRecordsWith_heapExtends cfg ctor resources s records s' h)
  | some incl =>
    obtain ⟨s1, s2, sa, h1, h2, h3, h4⟩ := resourcesToRecords_some_ok _ _ _ _ _ _ _ h
    have hrb1 : RefsBound s1 :=
      RefsBound_of hrb (createIncludedRecords_bindingMono cfg incl s s1 h1)
        (createIncludedRecords_heapExtends cfg incl s s1 h1)
    have hrb2 : RefsBound s2 :=
      RefsBound_of hrb1 (createRecordsWith_bindingMono cfg ctor resources s1 records s2 h2)
        (createRecordsWith_heapExtends cfg ctor resources s1 records s2 h2)
    exact (populateAll_props cfg incl sa s' h4).2 ((populateAll_props cfg resources s2 sa h3).2 hrb2)

/-! ## Keyed element lemmas for the materialize pass -/

theorem createRecordsWith_elem (cfg : Config) (c : CtorId) (t : String)
    (ht : getModelType cfg c = .ok t) :
    ∀ (rs : List JsonApiResource) (s : Store) (addrs : List Nat) (s' : Store),
      createRecordsWith cfg c s rs = .ok (addrs, s') →
      ∀ (n : Nat) (r : JsonApiResource), rs.get? n = some r →
        ∃ a, addrs.get? n = some a ∧ lookupRec s' t r.id = some a ∧
          ∀ a0, lookupRec s t r.id = some a0 → a = a0 := by
  intro rs
  induction rs with
  | nil =>
    intro s addrs s' h n r hn
    simp only [List.get?] at hn
    exact Option.noConfusion hn
  | cons r0 rest ih =>
    intro s addrs s' h n r hn
    simp only [createRecordsWith, Bind.bind, Except.bind] at h
    cases h1 : internalCreateRecord cfg s c r0.id r0.attributes with
    | error e => rw [h1] at h; exact Except.noConfusion h
    | ok p =>
      obtain ⟨a, s1⟩ := p
      rw [h1] at h
      dsimp only at h
      cases h2 : createRecordsWith cfg c s1 rest with
      | error e => rw [h2] at h; exact Except.noConfusion h
      | ok q =>
        obtain ⟨rest', s2⟩ := q
        rw [h2] at h
        simp only [Except.ok.injEq, Prod.mk.injEq] at h
        obtain ⟨rfl, rfl⟩ := h
        cases n with
        | zero =>
          obtain rfl : r0 = r := Option.some_injective _ hn
          refine ⟨a, rfl, ?_, ?_⟩
          · exact createRecordsWith_bindingMono cfg c rest s1 rest' s2 h2 t r0.id a
              (internalCreateRecord_result_binding cfg s c r0.id r0.attributes a s1 t h1 ht)
          · intro a0 hb0
            obtain ⟨t0, bucket, ht0, hbk, hcase⟩ := internalCreateRecord_ok _ _ _ _ _ _ _ h1
            rw [ht] at ht0
            obtain rfl : t0 = t := (Except.ok.injEq _ _).mp ht0.symm
            simp only [lookupRec, hbk, Option.some_bind] at hb0
            rcases hcase with ⟨obj, ha, hobj, rfl⟩ | ⟨ha, hr, rfl⟩
            · rw [ha] at hb0
              exact Option.some_injective _ hb0
            · rw [ha] at hb0
              exact Option.noConfusion hb0
        | succ n' =>
          simp only [List.get?] at hn
          obtain ⟨a', haddr, hbind, hstab⟩ := ih s1 rest' s2 h2 n' r hn
          refine ⟨a', haddr, hbind, ?_⟩
          intro a0 hb0
          exact hstab a0
            (internalCreateRecord_bindingMono cfg s c r0.id r0.attributes a s1 h1 t r.id a0 hb0)

theorem createRecordsWith_length (cfg : Config) (c : CtorId) :
    ∀ (rs : List JsonApiResource) (s : Store) (addrs : List Nat) (s' : Store),
      createRecordsWith cfg c s rs = .ok (addrs, s') → addrs.length = rs.length := by
  intro rs
  induction rs with
  | nil =>
    intro s addrs s' h
    simp only [createRecordsWith, Except.ok.injEq, Prod.mk.injEq] at h
    rw [← h.1]
    rfl
  | cons r0 rest ih =>
    intro s addrs s' h
    simp only [createRecordsWith, Bind.bind, Except.bind] at h
    cases h1 : internalCreateRecord cfg s c r0.id r0.attributes with
    | error e => rw [h1] at h; exact Except.noConfusion h
    | ok p =>
      obtain ⟨a, s1⟩ := p
      rw [h1] at h
      dsimp only at h
      cases h2 : createRecordsWith cfg c s1 rest with
      | error e => rw [h2] at h; exact Except.noConfusion h
      | ok q =>
        obtain ⟨rest', s2⟩ := q
        rw [h2] at h
        simp only [Except.ok.injEq, Prod.mk.injEq] at h
        rw [← h.1]
        simp [ih s1 rest' s2 h2]

/-- Each primary resource's returned record is the identity-map binding of
`(type-of-ctor, resource.id)` in the final store. -/
theorem resourcesToRecords_result_binding (cfg : Config) (s : Store) (ctor : CtorId)
    (t : String) (ht : getModelType cfg ctor = .ok t)
    (resources : List JsonApiResource) (included : Option (List JsonApiResource))
    (records : List Nat) (s' : Store)
    (h : resourcesToRecords cfg s ctor resources included = .ok (records, s'))
    (n : Nat) (r : JsonApiResource) (hn : resources.get? n = some r) :
    ∃ a, records.get? n = some a ∧ lookupRec s' t r.id = some a := by
  cases included with
  | none =>
    rw [resourcesToRecords_none] at h
    obtain ⟨a, haddr, hbind, _⟩ := createRecordsWith_elem cfg ctor t ht resources s records s' h n r hn
    exact ⟨a, haddr, hbind⟩
  | some incl =>
    obtain ⟨s1, s2, sa, h1, h2, h3, h4⟩ := resourcesToRecords_some_ok _ _ _ _ _ _ _ h
    obtain ⟨a, haddr, hbind, _⟩ := createRecordsWith_elem cfg ctor t ht resources s1 records s2 h2 n r hn
    refine ⟨a, haddr, ?_⟩
    rw [lookupRec_congr ((populateAll_props cfg incl sa s' h4).1.trans
      (populateAll_props cfg resources s2 sa h3).1) t r.id]
    exact hbind

theorem resourcesToRecords_length (cfg : Config) (s : Store) (ctor : CtorId)
    (resources : List JsonApiResource) (included : Option (List JsonApiResource))
    (records : List Nat) (s' : Store)
    (h : resourcesToRecords cfg s ctor resources included = .ok (records, s')) :
    records.length = resources.length := by
  cases included with
  | none =>
    rw [resourcesToRecords_none] at h
    exact createRecordsWith_length cfg ctor resources s records s' h
  | some incl =>
    obtain ⟨s1, s2, sa, h1, h2, h3, h4⟩ := resourcesToRecords_some_ok _ _ _ _ _ _ _ h
    exact createRecordsWith_length cfg ctor resources s1 records s2 h2

/-! ## `findAll` and `findRecord` lemmas -/

theorem findAll_ok (cfg : Config) (s : Store) (ctor : CtorId) (doc : JsonApiDocument)
    (records : List Nat) (s' : Store) (h : findAll cfg s ctor doc = .ok (records, s')) :
    ∃ t l, getModelType cfg ctor = .ok t ∧ doc.data = .many l ∧
      resourcesToRecords cfg s ctor l doc.included = .ok (records, s') := by
  unfold findAll at h
  cases ht : getModelType cfg ctor with
  | error e =>
    rw [ht] at h
    simp only [Bind.bind, Except.bind] at h
    exact Except.noConfusion h
  | ok t =>
    rw [ht] at h
    simp only [Bind.bind, Except.bind] at h
    cases hd : doc.data with
    | none =>
      rw [hd] at h
      dsimp only at h
      exact Except.noConfusion h
    | one r =>
      rw [hd] at h
      dsimp only at h
      exact Except.noConfusion h
    | many l =>
      rw [hd] at h
      dsimp only at h
      exact ⟨t, l, rfl, rfl, h⟩

theorem findRecord_ok (cfg : Config) (s : Store) (ctor : CtorId) (id : String)
    (doc : JsonApiDocument) (a : Nat) (s' : Store) (fetched : Bool)
    (h : findRecord cfg s ctor id doc = .ok (a, s', fetched)) :
    ∃ t bucket, getModelType cfg ctor = .ok t ∧ alistGet s.recordsByType t = some bucket ∧
      ((fetched = false ∧ s' = s ∧ alistGet bucket id = some a) ∨
       (fetched = true ∧ alistGet bucket id = none ∧
         ∃ r s1, doc.data = .one r ∧
           resourcesToRecords cfg s ctor [r] doc.included = .ok ([a], s1) ∧
           s' = { s1 with recordsByType := alistSet s1.recordsByType t (alistSet ((alistGet s1.recordsByType t).getD []) id a) })) := by
  unfold findRecord getRecords at h
  cases ht : getModelType cfg ctor with
  | error e =>
    rw [ht] at h
    simp only [Bind.bind, Except.bind] at h
    exact Except.noConfusion h
  | ok t =>
    rw [ht] at h
    simp only [Bind.bind, Except.bind] at h
    cases hbk : alistGet s.recordsByType t with
    | none =>
      rw [hbk] at h
      dsimp only at h
      exact Except.noConfusion h
    | some bucket =>
      rw [hbk] at h
      dsimp only at h
      refine ⟨t, bucket, rfl, hbk, ?_⟩
      by_cases hhas : alistHas bucket id
      · rw [if_pos hhas] at h
        simp only [Option.getD] at h
        cases hget : alistGet bucket id with
        | none =>
          rw [hget] at h
          exact Except.noConfusion h
        | some a0 =>
          rw [hget] at h
          simp only [Except.ok.injEq, Prod.mk.injEq] at h
          obtain ⟨rfl, rfl, rfl⟩ := h
          exact Or.inl ⟨rfl, rfl, rfl⟩
      · rw [if_neg hhas] at h
        have hget : alistGet bucket id = none := by
          cases hg : alistGet bucket id with
          | none => rfl
          | some v => rw [alistHas, hg] at hhas; exact absurd rfl hhas
        cases hd : doc.data with
        | none =>
          rw [hd] at h
          dsimp only at h
          exact Except.noConfusion h
        | many l =>
          rw [hd] at h
          dsimp only at h
          exact Except.noConfusion h
        | one r =>
          rw [hd] at h
          dsimp only at h
          cases hres : resourcesToRecords cfg s ctor [r] doc.included with
          | error e => rw [hres] at h; exact Except.noConfusion h
          | ok p =>
            obtain ⟨records0, s1⟩ := p
            rw [hres] at h
            dsimp only at h
            have hlen : records0.length = 1 :=
              resourcesToRecords_length cfg s ctor [r] doc.included records0 s1 hres
            cases records0 with
            | nil => exact absurd hlen (by simp)
            | cons rec restl =>
              have hrest : restl = [] := by
                simp only [List.length_cons] at hlen
                exact List.eq_nil_of_length_eq_zero (Nat.succ_injective hlen)
              subst hrest
              dsimp only at h
              rw [alistGet_set_self] at h
              simp only [Option.getD, alistGet_set_self] at h
              simp only [Except.ok.injEq, Prod.mk.injEq] at h
              obtain ⟨rfl, rfl, rfl⟩ := h
              exact Or.inr ⟨rfl, hget, r, s1, rfl, hres, rfl⟩

theorem findAll_bindingMono (cfg : Config) (s : Store) (ctor : CtorId) (doc : JsonApiDocument)
    (records : List Nat) (s' : Store) (h : findAll cfg s ctor doc = .ok (records, s')) :
    BindingMono s s' := by
  obtain ⟨t, l, ht, hd, hres⟩ := findAll_ok cfg s ctor doc records s' h
  exact resourcesToRecords_bindingMono cfg s ctor l doc.included records s' hres

theorem findAll_refsBound (cfg : Config) (s : Store) (ctor : CtorId) (doc : JsonApiDocument)
    (records : List Nat) (s' : Store) (h : findAll cfg s ctor doc = .ok (records, s'))
    (hrb : RefsBound s) : RefsBound s' := by
  obtain ⟨t, l, ht, hd, hres⟩ := findAll_ok cfg s ctor doc records s' h
  exact resourcesToRecords_refsBound cfg s ctor l doc.included records s' hres hrb

theorem findRecord_bindingMono (cfg : Config) (s : Store) (ctor : CtorId) (id : String)
    (doc : JsonApiDocument) (a : Nat) (s' : Store) (fetched : Bool)
    (h : findRecord cfg s ctor id doc = .ok (a, s', fetched)) : BindingMono s s' := by
  obtain ⟨t, bucket, ht, hbk, hcase⟩ := findRecord_ok cfg s ctor id doc a s' fetched h
  rcases hcase with ⟨_, rfl, _⟩ | ⟨_, hget, r, s1, hd, hres, rfl⟩
  · exact BindingMono_refl _
  · have hbm1 := resourcesToRecords_bindingMono cfg s ctor [r] doc.included [a] s1 hres
    intro t' i' a' hb'
    have hb1 := hbm1 t' i' a' hb'
    by_cases hts : t = t'
    · subst hts
      have hii : i' ≠ id := by
        intro hid
        subst hid
        simp only [lookupRec, hbk, Option.some_bind, hget] at hb'
        exact Option.noConfusion hb'
      simp only [lookupRec, alistGet_set_self, Option.some_bind]
      rw [alistGet_set_ne _ _ _ _ (Ne.symm hii)]
      cases hB : alistGet s1.recordsByType t with
      | none =>
        simp only [lookupRec, hB, Option.none_bind] at hb1
        exact Option.noConfusion hb1
      | some B =>
        simp only [lookupRec, hB, Option.some_bind] at hb1
        exact hb1
    · simp only [lookupRec]
      rw [alistGet_set_ne _ _ _ _ hts]
      exact hb1

theorem findRecord_returns_binding (cfg : Config) (s : Store) (ctor : CtorId) (id : String)
    (doc : JsonApiDocument) (a : Nat) (s' : Store) (fetched : Bool) (t : String)
    (h : findRecord cfg s ctor id doc = .ok (a, s', fetched))
    (ht : getModelType cfg ctor = .ok t) : lookupRec s' t id = some a := by
  obtain ⟨t0, bucket, ht0, hbk, hcase⟩ := findRecord_ok cfg s ctor id doc a s' fetched h
  rw [ht] at ht0
  obtain rfl : t0 = t := (Except.ok.injEq _ _).mp ht0.symm
  rcases hcase with ⟨_, rfl, hget⟩ | ⟨_, hget, r, s1, hd, hres, rfl⟩
  · simp only [lookupRec, hbk, Option.some_bind]
    exact hget
  · simp only [lookupRec, alistGet_set_self, Option.some_bind]

theorem findRecord_refsBound (cfg : Config) (s : Store) (ctor : CtorId) (id : String)
    (doc : JsonApiDocument) (a : Nat) (s' : Store) (fetched : Bool)
    (h : findRecord cfg s ctor id doc = .ok (a, s', fetched))
    (hwf : ∀ r, doc.data = DocData.one r → r.id = id)
    (hrb : RefsBound s) : RefsBound s' := by
  obtain ⟨t, bucket, ht, hbk, hcase⟩ := findRecord_ok cfg s ctor id doc a s' fetched h
  rcases hcase with ⟨_, rfl, _⟩ | ⟨_, hget, r, s1, hd, hres, rfl⟩
  · exact hrb
  · have hrb1 := resourcesToRecords_refsBound cfg s ctor [r] doc.included [a] s1 hres hrb
    have hid : r.id = id := hwf r hd
    obtain ⟨a2, ha2, hbind⟩ := resourcesToRecords_result_binding cfg s ctor t ht
      [r] doc.included [a] s1 hres 0 r rfl
    obtain rfl : a = a2 := by simpa using ha2
    rw [hid] at hbind
    cases hB : alistGet s1.recordsByType t with
    | none =>
      simp only [lookupRec, hB, Option.none_bind] at hbind
      exact Option.noConfusion hbind
    | some B =>
      simp only [lookupRec, hB, Option.some_bind] at hbind
      have hs : { s1 with recordsByType := alistSet s1.recordsByType t (alistSet ((some B).getD []) id a) } = s1 := by
        rw [Option.getD_some, alistSet_same _ _ _ hbind, alistSet_same _ _ _ hB]
      rw [hs]
      exact hrb1

/-! ## Call-sequence lemmas -/

theorem runOp_ok_cases (cfg : Config) (s : Store) (op : Op) (s' : Store)
    (h : runOp cfg s op = .ok s') :
    (∃ c i d a f, op = Op.findRecordOp c i d ∧ findRecord cfg s c i d = .ok (a, s', f)) ∨
    (∃ c d recs, op = Op.findAllOp c d ∧ findAll cfg s c d = .ok (recs, s')) := by
  cases op with
  | findRecordOp c i d =>
    unfold runOp at h
    dsimp only at h
    cases hf : findRecord cfg s c i d with
    | error e => rw [hf] at h; exact Except.noConfusion h
    | ok p =>
      obtain ⟨a, s2, f⟩ := p
      rw [hf] at h
      simp only [Except.map, Except.ok.injEq] at h
      rw [← h]
      exact Or.inl ⟨c, i, d, a, f, rfl, hf⟩
  | findAllOp c d =>
    unfold runOp at h
    dsimp only at h
    cases hf : findAll cfg s c d with
    | error e => rw [hf] at h; exact Except.noConfusion h
    | ok p =>
      obtain ⟨recs, s2⟩ := p
      rw [hf] at h
      simp only [Except.map, Except.ok.injEq] at h
      rw [← h]
      exact Or.inr ⟨c, d, recs, rfl, hf⟩

theorem runOp_bindingMono (cfg : Config) (s : Store) (op : Op) (s' : Store)
    (h : runOp cfg s op = .ok s') : BindingMono s s' := by
  rcases runOp_ok_cases cfg s op s' h with ⟨c, i, d, a, f, _, hf⟩ | ⟨c, d, recs, _, hf⟩
  · exact findRecord_bindingMono cfg s c i d a s' f hf
  · exact findAll_bindingMono cfg s c d recs s' hf

theorem runOp_refsBound (cfg : Config) (s : Store) (op : Op) (s' : Store)
    (h : runOp cfg s op = .ok s') (hwf : opWf op) (hrb : RefsBound s) : RefsBound s' := by
  rcases runOp_ok_cases cfg s op s' h with ⟨c, i, d, a, f, heq, hf⟩ | ⟨c, d, recs, heq, hf⟩
  · subst heq
    exact findRecord_refsBound cfg s c i d a s' f hf hwf hrb
  · exact findAll_refsBound cfg s c d recs s' hf hrb

theorem runOps_bindingMono (cfg : Config) :
    ∀ (ops : List Op) (s s' : Store), runOps cfg s ops = .ok s' → BindingMono s s' := by
  intro ops
  induction ops with
  | nil =>
    intro s s' h
    simp only [runOps, Except.ok.injEq] at h
    rw [← h]
    exact BindingMono_refl s
  | cons op rest ih =>
    intro s s' h
    simp only [runOps, Bind.bind, Except.bind] at h
    cases h1 : runOp cfg s op with
    | error e => rw [h1] at h; exact Except.noConfusion h
    | ok s1 =>
      rw [h1] at h
      dsimp only at h
      exact BindingMono_trans (runOp_bindingMono cfg s op s1 h1) (ih s1 s' h)

theorem runOps_refsBound (cfg : Config) :
    ∀ (ops : List Op) (s s' : Store), (∀ op ∈ ops, opWf op) →
      runOps cfg s ops = .ok s' → RefsBound s → RefsBound s' := by
  intro ops
  induction ops with
  | nil =>
    intro s s' hwf h hrb
    simp only [runOps, Except.ok.injEq] at h
    rw [← h]
    exact hrb
  | cons op rest ih =>
    intro s s' hwf h hrb
    simp only [runOps, Bind.bind, Except.bind] at h
    cases h1 : runOp cfg s op with
    | error e => rw [h1] at h; exact Except.noConfusion h
    | ok s1 =>
      rw [h1] at h
      dsimp only at h
      exact ih s1 s' (fun o ho => hwf o (List.mem_cons_of_mem op ho)) h
        (runOp_refsBound cfg s op s1 h1 (hwf op (List.mem_cons_self op rest)) hrb)

/-- The empty store of a fresh configuration stores no references. -/
theorem refsBound_initStore (cfg : Config) : RefsBound (initStore cfg) := by
  intro a obj h1
  simp only [initStore, alistGet] at h1
  exact Option.noConfusion h1

/-! ## Forward-evaluation lemmas for single link-pass iterations -/

/-- Resolving a wire identifier array keeps exactly the identifiers bound
in the target bucket, in document order, and never fails. -/
theorem resolveRids_map_one (records : AList String Nat) :
    ∀ (l : List JsonApiResourceIdentifier),
      resolveRids records (l.map RelData.one) =
        .ok (l.filterMap (fun rr => alistGet records rr.id)) := by
  intro l
  induction l with
  | nil => rfl
  | cons rr rest ih =>
    simp only [List.map_cons, resolveRids, ridId, Bind.bind, Except.bind, ih]
    cases hg : alistGet records rr.id with
    | some a => simp [List.filterMap_cons, hg]
    | none => simp [List.filterMap_cons, hg]

/-- A wire relationship entry is skipped outright when the owning model
registered no relationship map at all. -/
theorem populateRelationshipEntry_norels (cfg : Config) (s : Store) (addr : Nat)
    (rc : CtorId) (entry : String × JsonApiRelationship)
    (hr : alistGet (relsRegistry cfg) rc = none) :
    populateRelationshipEntry cfg s addr rc entry = .ok s := by
  unfold populateRelationshipEntry
  rw [hr]

/-- A wire relationship entry whose (normalized) name is not among the
model's declared relationships throws. -/
theorem populateRelationshipEntry_undeclared (cfg : Config) (s : Store) (addr : Nat)
    (rc : CtorId) (entry : String × JsonApiRelationship)
    (rels : AList String Relationship)
    (hr : alistGet (relsRegistry cfg) rc = some rels)
    (hrel : alistGet rels (camel cfg entry.1) = none) :
    populateRelationshipEntry cfg s addr rc entry = .error "Relationship not defined" := by
  unfold populateRelationshipEntry
  rw [hr]
  dsimp only
  rw [hrel]

/-- A declared belongs-to relationship whose wire `data` is `null` makes
the link pass throw: the filter step dereferences `null.id`. -/
theorem populateRelationshipEntry_belongsTo_null (cfg : Config) (s : Store) (addr : Nat)
    (rc : CtorId) (name : String) (rels : AList String Relationship) (rel : Relationship)
    (relType : String) (relTypeRecords : AList String Nat)
    (hr : alistGet (relsRegistry cfg) rc = some rels)
    (hrel : alistGet rels (camel cfg name) = some rel)
    (hrt : rel.type = RelationshipType.belongsTo)
    (hmt : getModelType cfg rel.ctor = .ok relType)
    (hbk : alistGet s.recordsByType relType = some relTypeRecords) :
    populateRelationshipEntry cfg s addr rc (name, { data := RelData.null }) =
      .error "TypeError: Cannot read properties of null" := by
  unfold populateRelationshipEntry
  rw [hr]
  dsimp only
  rw [hrel]
  dsimp only
  rw [hmt]
  simp only [Bind.bind, Except.bind]
  rw [hbk]
  dsimp only
  rw [hrt]
  dsimp only [resolveRids, ridId]
  simp only [Bind.bind, Except.bind]

/-- Forward evaluation of a declared has-many entry with an identifier
array: unresolvable identifiers are dropped, the rest are assigned in
document order, and no error is raised. -/
theorem populateRelationshipEntry_hasMany (cfg : Config) (s : Store) (addr : Nat)
    (rc : CtorId) (name : String) (l : List JsonApiResourceIdentifier)
    (rels : AList String Relationship) (rel : Relationship)
    (relType : String) (relTypeRecords : AList String Nat) (obj : ModelObj)
    (hr : alistGet (relsRegistry cfg) rc = some rels)
    (hrel : alistGet rels (camel cfg name) = some rel)
    (hrt : rel.type = RelationshipType.hasMany)
    (hmt : getModelType cfg rel.ctor = .ok relType)
    (hbk : alistGet s.recordsByType relType = some relTypeRecords)
    (hobj : alistGet s.heap addr = some obj) :
    populateRelationshipEntry cfg s addr rc (name, { data := RelData.many l }) =
      .ok { s with heap := alistSet s.heap addr { obj with fields := alistSet obj.fields (camel cfg name) (.refs (l.filterMap (fun rr => alistGet relTypeRecords rr.id))) } } := by
  unfold populateRelationshipEntry
  rw [hr]
  dsimp only
  rw [hrel]
  dsimp only
  rw [hmt]
  simp only [Bind.bind, Except.bind]
  rw [hbk]
  dsimp only
  rw [hrt]
  dsimp only
  rw [resolveRids_map_one]
  dsimp only [relAssignValue]
  unfold setField
  rw [hobj]

/-- Cache-first read: when `(type, id)` is already identity-mapped,
`findRecord` returns that instance, leaves the store untouched, and does
not consult the fetcher — uniformly in whatever document the fetcher
would have produced. -/
theorem findRecord_hit (cfg : Config) (s : Store) (ctor : CtorId) (id : String)
    (doc : JsonApiDocument) (t : String) (bucket : AList String Nat) (a : Nat)
    (ht : getModelType cfg ctor = .ok t)
    (hbk : alistGet s.recordsByType t = some bucket)
    (ha : alistGet bucket id = some a) :
    findRecord cfg s ctor id doc = .ok (a, s, false) := by
  have hhas : alistHas bucket id = true := by rw [alistHas, ha]; rfl
  unfold findRecord getRecords
  rw [ht]
  simp only [Bind.bind, Except.bind]
  rw [hbk]
  dsimp only
  rw [if_pos hhas]
  simp only [Option.getD]
  rw [ha]

/-! ## `unloadAll` lemmas -/

/-- Models `unloadAll` empties every per-type bucket but keeps the buckets. -/
theorem unloadAll_buckets (s : Store) (t : String) :
    alistGet (unloadAll s).recordsByType t = (alistGet s.recordsByType t).map (fun _ => []) := by
  show alistGet (s.recordsByType.map _) t = _
  induction s.recordsByType with
  | nil => rfl
  | cons kv rest ih =>
    obtain ⟨k, v⟩ := kv
    by_cases hk : k = t
    · simp [alistGet, hk]
    · simp only [List.map_cons, alistGet, hk, if_neg hk]
      exact ih

/-- After `unloadAll` no `(type, id)` is identity-mapped. -/
theorem unloadAll_lookupRec (s : Store) (t i : String) :
    lookupRec (unloadAll s) t i = none := by
  unfold lookupRec
  rw [unloadAll_buckets]
  cases alistGet s.recordsByType t with
  | none => rfl
  | some b => rfl

/-! ## Field-preservation lemmas (frame property of the materialize pass) -/

theorem applyProperties_preserves (cfg : Config) (props : List (String × JsValue))
    (fields : AList String FieldValue) (k : String) (fv : FieldValue)
    (h : alistGet fields k = some fv) :
    alistGet (applyProperties cfg fields props) k = some fv ∨
      ∃ v, alistGet (applyProperties cfg fields props) k = some (FieldValue.val v) := by
  rw [applyProperties_get]
  cases hl : lastAssigned cfg k props with
  | some v => exact Or.inr ⟨v, rfl⟩
  | none => exact Or.inl h

theorem applyPropsOpt_preserves (cfg : Config) (props : Option (List (String × JsValue)))
    (fields : AList String FieldValue) (k : String) (fv : FieldValue)
    (h : alistGet fields k = some fv) :
    alistGet (applyPropsOpt cfg fields props) k = some fv ∨
      ∃ v, alistGet (applyPropsOpt cfg fields props) k = some (FieldValue.val v) := by
  cases props with
  | some p => exact applyProperties_preserves cfg p fields k fv h
  | none => exact Or.inl h

theorem FieldsPreserved_refl (s : Store) : FieldsPreserved s s := by
  intro addr obj obj' k fv h1 h2 h3
  rw [h1] at h2
  obtain rfl := Option.some_injective _ h2
  exact Or.inl h3

theorem FieldsPreserved_trans {s1 s2 s3 : Store} (h12 : FieldsPreserved s1 s2)
    (h23 : FieldsPreserved s2 s3) (hm : HeapMono s1 s2) : FieldsPreserved s1 s3 := by
  intro addr obj obj3 k fv h1 h3 hf
  have hsome : (alistGet s2.heap addr).isSome := hm addr (by rw [h1]; rfl)
  cases h2 : alistGet s2.heap addr with
  | none => rw [h2] at hsome; exact absurd hsome (by simp [Option.isSome])
  | some obj2 =>
    rcases h12 addr obj obj2 k fv h1 h2 hf with hk | ⟨v, hv⟩
    · exact h23 addr obj2 obj3 k fv h2 h3 hk
    · rcases h23 addr obj2 obj3 k (FieldValue.val v) h2 h3 hv with hk | ⟨v2, hv2⟩
      · exact Or.inr ⟨v, hk⟩
      · exact Or.inr ⟨v2, hv2⟩

theorem internalCreateRecord_fresh_preserved (cfg : Config) (s : Store) (ctor : CtorId)
    (id : String) (props : Option (List (String × JsValue))) (r : Nat) (s' : Store)
    (h : internalCreateRecord cfg s ctor id props = .ok (r, s')) (hfresh : HeapFresh s) :
    HeapFresh s' ∧ FieldsPreserved s s' := by
  obtain ⟨t, bucket, ht, hb, hcase⟩ := internalCreateRecord_ok _ _ _ _ _ _ _ h
  rcases hcase with ⟨obj, ha, hobj, rfl⟩ | ⟨ha, hr, rfl⟩
  · constructor
    · intro addr hsome
      show addr < s.nextAlloc
      by_cases haddr : r = addr
      · subst haddr
        exact hfresh r (by rw [hobj]; rfl)
      · refine hfresh addr ?_
        show (alistGet s.heap addr).isSome
        rw [alistGet_set_ne _ _ _ _ haddr] at hsome
        exact hsome
    · intro addr obj0 obj' k fv h1 h2 hf
      by_cases haddr : r = addr
      · subst haddr
        rw [alistGet_set_self] at h2
        obtain rfl := Option.some_injective _ h2
        rw [h1] at hobj
        obtain rfl := Option.some_injective _ hobj
        exact applyPropsOpt_preserves cfg props obj0.fields k fv hf
      · rw [alistGet_set_ne _ _ _ _ haddr] at h2
        rw [h1] at h2
        obtain rfl := Option.some_injective _ h2
        exact Or.inl hf
  · subst hr
    constructor
    · intro addr hsome
      show addr < s.nextAlloc + 1
      by_cases haddr : s.nextAlloc = addr
      · omega
      · have := hfresh addr (by
          show (alistGet s.heap addr).isSome
          rw [alistGet_set_ne _ _ _ _ haddr] at hsome
          exact hsome)
        omega
    · intro addr obj0 obj' k fv h1 h2 hf
      have hlt : addr < s.nextAlloc := hfresh addr (by rw [h1]; rfl)
      have haddr : s.nextAlloc ≠ addr := by omega
      rw [alistGet_set_ne _ _ _ _ haddr] at h2
      rw [h1] at h2
      obtain rfl := Option.some_injective _ h2
      exact Or.inl hf

theorem createRecordsWith_fresh_preserved (cfg : Config) (c : CtorId) :
    ∀ (rs : List JsonApiResource) (s : Store) (addrs : List Nat) (s' : Store),
      createRecordsWith cfg c s rs = .ok (addrs, s') → HeapFresh s →
      HeapFresh s' ∧ FieldsPreserved s s' := by
  intro rs
  induction rs with
  | nil =>
    intro s addrs s' h hfresh
    simp only [createRecordsWith, Except.ok.injEq, Prod.mk.injEq] at h
    rw [← h.2]
    exact ⟨hfresh, FieldsPreserved_refl s⟩
  | cons r rest ih =>
    intro s addrs s' h hfresh
    simp only [createRecordsWith, Bind.bind, Except.bind] at h
    cases h1 : internalCreateRecord cfg s c r.id r.attributes with
    | error e => rw [h1] at h; exact Except.noConfusion h
    | ok p =>
      obtain ⟨a, s1⟩ := p
      rw [h1] at h
      dsimp only at h
      cases h2 : createRecordsWith cfg c s1 rest with
      | error e => rw [h2] at h; exact Except.noConfusion h
      | ok q =>
        obtain ⟨rest', s2⟩ := q
        rw [h2] at h
        simp only [Except.ok.injEq, Prod.mk.injEq] at h
        rw [← h.2]
        obtain ⟨hf1, hp1⟩ := internalCreateRecord_fresh_preserved cfg s c r.id r.attributes a s1 h1 hfresh
        obtain ⟨hf2, hp2⟩ := ih s1 rest' s2 h2 hf1
        exact ⟨hf2, FieldsPreserved_trans hp1 hp2 (internalCreateRecord_heapMono cfg s c r.id r.attributes a s1 h1)⟩

/-! ## `findRelated` lemmas -/

/-- A successful belongs-to `findRelated` whose related resource is already
identity-mapped reuses that instance: nothing is allocated, the instance is
mutated in place with the fetched attributes, and the very same instance is
assigned to `record[name]`. -/
theorem findRelated_belongsTo_inv (cfg : Config) (s : Store) (addr : Nat) (name : String)
    (doc : JsonApiDocument) (s' : Store) (obj : ModelObj)
    (rels : AList String Relationship) (rel : Relationship) (rt : String)
    (B : AList String Nat) (rr : JsonApiResource) (a : Nat) (relObj : ModelObj)
    (hf : findRelated cfg s addr name doc = .ok s')
    (hobj : alistGet s.heap addr = some obj)
    (hrels : alistGet (relsRegistry cfg) obj.ctor = some rels)
    (hrel : alistGet rels name = some rel)
    (hrt : rel.type = RelationshipType.belongsTo)
    (hmt : getModelType cfg rel.ctor = .ok rt)
    (hd : doc.data = DocData.one rr)
    (hbk : alistGet s.recordsByType rt = some B)
    (hbind : alistGet B rr.id = some a)
    (hrelObj : alistGet s.heap a = some relObj)
    (haneq : a ≠ addr) :
    s'.nextAlloc = s.nextAlloc ∧
    lookupRec s' rt rr.id = some a ∧
    (∃ obj2, alistGet s'.heap addr = some obj2 ∧
      alistGet obj2.fields name = some (.ref a)) ∧
    (∃ relObj2, alistGet s'.heap a = some relObj2 ∧
      relObj2.fields = applyPropsOpt cfg relObj.fields rr.attributes) := by
  unfold findRelated at hf
  rw [hobj] at hf
  simp only [Bind.bind, Except.bind] at hf
  rw [hrels] at hf
  dsimp only at hf
  rw [hrel] at hf
  dsimp only at hf
  cases htc : getModelType cfg obj.ctor with
  | error e => rw [htc] at hf; exact Except.noConfusion hf
  | ok tc =>
    rw [htc] at hf
    dsimp only at hf
    rw [hrt] at hf
    dsimp only at hf
    rw [hd] at hf
    dsimp only at hf
    rw [internalCreateRecord_reuse cfg s rel.ctor rr.id rr.attributes rt B a relObj
      hmt hbk hbind hrelObj] at hf
    dsimp only at hf
    unfold setField at hf
    rw [alistGet_set_ne _ _ _ _ haneq, hobj] at hf
    simp only [Except.ok.injEq] at hf
    rw [← hf]
    refine ⟨rfl, ?_, ?_, ?_⟩
    · simp only [lookupRec, hbk, Option.some_bind]
      exact hbind
    · refine ⟨{ obj with fields := alistSet obj.fields name (.ref a) }, ?_, ?_⟩
      · rw [alistGet_set_self]
      · rw [alistGet_set_self]
    · refine ⟨{ relObj with fields := applyPropsOpt cfg relObj.fields rr.attributes }, ?_, rfl⟩
      rw [alistGet_set_ne _ _ _ _ (Ne.symm haneq), alistGet_set_self]

/-- A successful has-many `findRelated`: the fetched resources are
materialized under the relationship's target model and the resulting array
is assigned to `record[name]`; every related resource already
identity-mapped before the call keeps its instance, which appears at its
document-order position in the assigned array. -/
theorem findRelated_hasMany_inv (cfg : Config) (s : Store) (addr : Nat) (name : String)
    (doc : JsonApiDocument) (s' : Store) (obj : ModelObj)
    (rels : AList String Relationship) (rel : Relationship) (rt : String)
    (l : List JsonApiResource)
    (hf : findRelated cfg s addr name doc = .ok s')
    (hobj : alistGet s.heap addr = some obj)
    (hrels : alistGet (relsRegistry cfg) obj.ctor = some rels)
    (hrel : alistGet rels name = some rel)
    (hrt : rel.type = RelationshipType.hasMany)
    (hmt : getModelType cfg rel.ctor = .ok rt)
    (hd : doc.data = DocData.many l) :
    ∃ addrs, addrs.length = l.length ∧
      (∃ obj2, alistGet s'.heap addr = some obj2 ∧
        alistGet obj2.fields name = some (.refs addrs)) ∧
      ∀ (n : Nat) (rr : JsonApiResource) (a0 : Nat), l.get? n = some rr →
        lookupRec s rt rr.id = some a0 →
        addrs.get? n = some a0 ∧ lookupRec s' rt rr.id = some a0 := by
  unfold findRelated at hf
  rw [hobj] at hf
  simp only [Bind.bind, Except.bind] at hf
  rw [hrels] at hf
  dsimp only at hf
  rw [hrel] at hf
  dsimp only at hf
  cases htc : getModelType cfg obj.ctor with
  | error e => rw [htc] at hf; exact Except.noConfusion hf
  | ok tc =>
    rw [htc] at hf
    dsimp only at hf
    rw [hrt] at hf
    dsimp only at hf
    rw [hd] at hf
    dsimp only at hf
    cases hcr : createRecordsWith cfg rel.ctor s l with
    | error e => rw [hcr] at hf; exact Except.noConfusion hf
    | ok p =>
      obtain ⟨addrs, s1⟩ := p
      rw [hcr] at hf
      dsimp only at hf
      obtain ⟨obj1, hobj1, rfl⟩ := setField_ok _ _ _ _ _ hf
      refine ⟨addrs, createRecordsWith_length cfg rel.ctor l s addrs s1 hcr, ?_, ?_⟩
      · refine ⟨{ obj1 with fields := alistSet obj1.fields name (.refs addrs) }, ?_, ?_⟩
        · rw [alistGet_set_self]
        · rw [alistGet_set_self]
      · intro n rr a0 hn hb0
        obtain ⟨a', haddr, hbind, hstab⟩ :=
          createRecordsWith_elem cfg rel.ctor rt hmt l s addrs s1 hcr n rr hn
        obtain rfl : a' = a0 := hstab a0 hb0
        exact ⟨haddr, hbind⟩

/-! ## Small `lastAssigned` computations -/

theorem lastAssigned_single_self (cfg : Config) (k : String) (v : JsValue)
    (hv : v ≠ JsValue.undef) : lastAssigned cfg (camel cfg k) [(k, v)] = some v := by
  simp [lastAssigned, hv]

theorem lastAssigned_single_other (cfg : Config) (k k' : String) (v : JsValue)
    (hk : camel cfg k ≠ k') : lastAssigned cfg k' [(k, v)] = none := by
  simp [lastAssigned, hk]

/-! ## Claim theorems -/

/-- C2: Attribute merge semantics.  Re-materializing an identity-mapped
record applies `applyProperties` to its current fields, and the result is
fully characterized by `lastAssigned`: a key whose (last) payload value is
an explicit JS `undefined` is skipped and a key absent from the payload is
left unchanged (both give `lastAssigned = none`, so the field keeps its
old value), while any other payload value — explicit `null` included —
overwrites the field.  Consequently materializing `{a: 1}` and later
`{b: 2}` for the same `(type, id)` yields one record carrying both
`a = 1` and `b = 2`. -/
theorem c2_attribute_merge :
    (∀ (cfg : Config) (s : Store) (ctor : CtorId) (id : String)
        (props : List (String × JsValue)) (t : String) (bucket : AList String Nat)
        (a : Nat) (obj : ModelObj),
        getModelType cfg ctor = Except.ok t →
        alistGet s.recordsByType t = some bucket →
        alistGet bucket id = some a →
        alistGet s.heap a = some obj →
        internalCreateRecord cfg s ctor id (some props) =
          .ok (a, { s with heap := alistSet s.heap a { obj with fields := applyProperties cfg obj.fields props } }) ∧
        (∀ k, alistGet (applyProperties cfg obj.fields props) k =
          match lastAssigned cfg k props with
          | some v => some (FieldValue.val v)
          | none => alistGet obj.fields k)) ∧
    (∀ (cfg : Config) (s : Store) (ctor : CtorId) (id : String) (k1 k2 : String)
        (v1 v2 : JsValue) (t : String) (a1 : Nat) (s1 : Store) (a2 : Nat) (s2 : Store),
        getModelType cfg ctor = Except.ok t →
        internalCreateRecord cfg s ctor id (some [(k1, v1)]) = .ok (a1, s1) →
        internalCreateRecord cfg s1 ctor id (some [(k2, v2)]) = .ok (a2, s2) →
        v1 ≠ JsValue.undef → v2 ≠ JsValue.undef → camel cfg k1 ≠ camel cfg k2 →
        a2 = a1 ∧ ∃ obj2, alistGet s2.heap a2 = some obj2 ∧
          alistGet obj2.fields (camel cfg k1) = some (.val v1) ∧
          alistGet obj2.fields (camel cfg k2) = some (.val v2)) := by
  constructor
  · intro cfg s ctor id props t bucket a obj ht hbk ha hobj
    exact ⟨internalCreateRecord_reuse cfg s ctor id (some props) t bucket a obj ht hbk ha hobj,
      fun k => applyProperties_get cfg props obj.fields k⟩
  · intro cfg s ctor id k1 k2 v1 v2 t a1 s1 a2 s2 ht h1 h2 hv1 hv2 hk
    have hb1 : lookupRec s1 t id = some a1 :=
      internalCreateRecord_result_binding cfg s ctor id (some [(k1, v1)]) a1 s1 t h1 ht
    obtain ⟨t0, bucket, ht0, hbk, hcase⟩ := internalCreateRecord_ok _ _ _ _ _ _ _ h1
    have hfields1 : ∃ obj1, alistGet s1.heap a1 = some obj1 ∧
        alistGet obj1.fields (camel cfg k1) = some (.val v1) := by
      rcases hcase with ⟨obj, ha, hobjS, rfl⟩ | ⟨ha, hr, rfl⟩
      · refine ⟨{ obj with fields := applyPropsOpt cfg obj.fields (some [(k1, v1)]) }, ?_, ?_⟩
        · rw [alistGet_set_self]
        · show alistGet (applyProperties cfg obj.fields [(k1, v1)]) (camel cfg k1) = _
          rw [applyProperties_get, lastAssigned_single_self cfg k1 v1 hv1]
      · subst hr
        refine ⟨⟨ctor, applyPropsOpt cfg [("id", .val (.str id))] (some [(k1, v1)])⟩, ?_, ?_⟩
        · rw [alistGet_set_self]
        · show alistGet (applyProperties cfg [("id", .val (.str id))] [(k1, v1)]) (camel cfg k1) = _
          rw [applyProperties_get, lastAssigned_single_self cfg k1 v1 hv1]
    obtain ⟨obj1, hobj1, hfield1⟩ := hfields1
    obtain ⟨t2, bucket2, ht2, hbk2, hcase2⟩ := internalCreateRecord_ok _ _ _ _ _ _ _ h2
    rw [ht] at ht2
    obtain rfl : t2 = t := (Except.ok.injEq _ _).mp ht2.symm
    simp only [lookupRec, hbk2, Option.some_bind] at hb1
    rcases hcase2 with ⟨obj2', ha2, hobj2S, rfl⟩ | ⟨ha2, hr2, rfl⟩
    · rw [hb1] at ha2
      obtain rfl : a1 = a2 := Option.some_injective _ ha2
      rw [hobj1] at hobj2S
      obtain rfl : obj1 = obj2' := Option.some_injective _ hobj2S
      refine ⟨rfl, { obj1 with fields := applyPropsOpt cfg obj1.fields (some [(k2, v2)]) }, ?_, ?_, ?_⟩
      · rw [alistGet_set_self]
      · show alistGet (applyProperties cfg obj1.fields [(k2, v2)]) (camel cfg k1) = _
        rw [applyProperties_get, lastAssigned_single_other cfg k2 (camel cfg k1) v2 (Ne.symm hk)]
        exact hfield1
      · show alistGet (applyProperties cfg obj1.fields [(k2, v2)]) (camel cfg k2) = _
        rw [applyProperties_get, lastAssigned_single_self cfg k2 v2 hv2]
    · rw [hb1] at ha2
      exact Option.noConfusion ha2

/-- C2 witness: `undefined`-valued keys are skipped, explicit `null`
overwrites, unmentioned keys stay; `{a: 1}` then `{b: 2}` on the same
record leaves both set. -/
theorem c2_attribute_merge_witness :
    internalCreateRecord oneModelConfig w1Store 0 "1"
        (some [("t", JsValue.undef), ("u", JsValue.null)]) =
      .ok (0, { w1Store with heap := alistSet w1Store.heap 0 { ctor := 0, fields := applyProperties oneModelConfig [("id", .val (.str "1")), ("t", .val (.str "x"))] [("t", JsValue.undef), ("u", JsValue.null)] } }) ∧
    alistGet (applyProperties oneModelConfig [("id", .val (.str "1")), ("t", .val (.str "x"))]
      [("t", JsValue.undef), ("u", JsValue.null)]) "t" = some (.val (.str "x")) ∧
    alistGet (applyProperties oneModelConfig [("id", .val (.str "1")), ("t", .val (.str "x"))]
      [("t", JsValue.undef), ("u", JsValue.null)]) "u" = some (.val JsValue.null) ∧
    (∃ obj2, alistGet c2s2.heap 0 = some obj2 ∧
      alistGet obj2.fields "a" = some (.val (.num 1)) ∧
      alistGet obj2.fields "b" = some (.val (.num 2))) := by
  obtain ⟨heq, hall⟩ := c2_attribute_merge.1 oneModelConfig w1Store 0 "1"
    [("t", JsValue.undef), ("u", JsValue.null)] "a" _ 0 _ rfl rfl rfl rfl
  refine ⟨heq, (hall "t").trans rfl, (hall "u").trans rfl, ?_⟩
  obtain ⟨ha2, obj2, hobj2, hk1, hk2⟩ := c2_attribute_merge.2 oneModelConfig w1Store 0 "1"
    "a" "b" (JsValue.num 1) (JsValue.num 2) "a" 0 c2s1 0 c2s2 rfl rfl rfl
    (by decide) (by decide) (by decide)
  exact ⟨obj2, hobj2, hk1, hk2⟩

/-- C3 counterexample: materializing an article whose declared belongs-to
`author` relationship carries `data: null` does not yield a null reference
without error — it throws a `TypeError` (the filter step dereferences
`null.id`). -/
theorem c3_null_belongsTo_counterexample :
    findRecord articlesConfig (initStore articlesConfig) 2 "1" nullAuthorDoc =
      .error "TypeError: Cannot read properties of null" := by rfl

/-- C3 (amended): for every declared belongs-to relationship entry with
`data: null` (target model registered), the link pass throws a `TypeError`
instead of assigning a null/absent reference. -/
theorem c3_null_belongsTo_throws (cfg : Config) (s : Store) (addr : Nat) (rc : CtorId)
    (name : String) (rels : AList String Relationship) (rel : Relationship)
    (relType : String) (relTypeRecords : AList String Nat)
    (hr : alistGet (relsRegistry cfg) rc = some rels)
    (hrel : alistGet rels (camel cfg name) = some rel)
    (hrt : rel.type = RelationshipType.belongsTo)
    (hmt : getModelType cfg rel.ctor = .ok relType)
    (hbk : alistGet s.recordsByType relType = some relTypeRecords) :
    populateRelationshipEntry cfg s addr rc (name, { data := RelData.null }) =
      .error "TypeError: Cannot read properties of null" :=
  populateRelationshipEntry_belongsTo_null cfg s addr rc name rels rel relType
    relTypeRecords hr hrel hrt hmt hbk

/-- C3 witness for the amended claim, at the articles fixture. -/
theorem c3_null_belongsTo_throws_witness :
    populateRelationshipEntry articlesConfig articlesStore 0 2
        ("author", { data := RelData.null }) =
      .error "TypeError: Cannot read properties of null" :=
  c3_null_belongsTo_throws articlesConfig articlesStore 0 2 "author" _ _ "person" _
    rfl rfl rfl rfl rfl

/-- C4 counterexample: a wire relationship name undeclared on a model that
does declare other relationships is not silently ignored — materialization
throws `Relationship not defined`. -/
theorem c4_undeclared_rel_counterexample :
    findRecord articlesConfig (initStore articlesConfig) 2 "1" unknownRelDoc =
      .error "Relationship not defined" := by rfl

/-- C4 (amended): a wire relationship entry is silently ignored (no error,
no field assigned, store unchanged) only when the owning record's model
registered no relationship map at all; when the model declares at least
one relationship, an undeclared wire relationship name throws
`Relationship not defined`. -/
theorem c4_undeclared_relationship :
    (∀ (cfg : Config) (s : Store) (addr : Nat) (rc : CtorId)
        (entry : String × JsonApiRelationship),
        alistGet (relsRegistry cfg) rc = none →
        populateRelationshipEntry cfg s addr rc entry = .ok s) ∧
    (∀ (cfg : Config) (s : Store) (addr : Nat) (rc : CtorId)
        (entry : String × JsonApiRelationship) (rels : AList String Relationship),
        alistGet (relsRegistry cfg) rc = some rels →
        alistGet rels (camel cfg entry.1) = none →
        populateRelationshipEntry cfg s addr rc entry = .error "Relationship not defined") :=
  ⟨fun cfg s addr rc entry hr => populateRelationshipEntry_norels cfg s addr rc entry hr,
   fun cfg s addr rc entry rels hr hrel =>
     populateRelationshipEntry_undeclared cfg s addr rc entry rels hr hrel⟩

/-- C4 witness: the person model (no declared relationships) ignores a
`frobs` wire entry; the article model (with declared relationships)
throws on it. -/
theorem c4_undeclared_relationship_witness :
    populateRelationshipEntry articlesConfig articlesStore 2 0
        ("frobs", { data := RelData.many [] }) = .ok articlesStore ∧
    populateRelationshipEntry articlesConfig articlesStore 0 2
        ("frobs", { data := RelData.many [] }) = .error "Relationship not defined" :=
  ⟨c4_undeclared_relationship.1 articlesConfig articlesStore 2 0
      ("frobs", { data := RelData.many [] }) rfl,
   c4_undeclared_relationship.2 articlesConfig articlesStore 0 2
      ("frobs", { data := RelData.many [] }) _ rfl rfl⟩

/-- C5: a declared has-many relationship entry resolves its identifier
array with `filterMap`: identifiers absent from the target-type bucket are
omitted without error, and the identifiers that do resolve are assigned —
as an array of the corresponding identity-mapped records — in document
order. -/
theorem c5_hasMany_unresolved_filtered (cfg : Config) (s : Store) (addr : Nat)
    (rc : CtorId) (name : String) (l : List JsonApiResourceIdentifier)
    (rels : AList String Relationship) (rel : Relationship)
    (relType : String) (relTypeRecords : AList String Nat) (obj : ModelObj)
    (hr : alistGet (relsRegistry cfg) rc = some rels)
    (hrel : alistGet rels (camel cfg name) = some rel)
    (hrt : rel.type = RelationshipType.hasMany)
    (hmt : getModelType cfg rel.ctor = .ok relType)
    (hbk : alistGet s.recordsByType relType = some relTypeRecords)
    (hobj : alistGet s.heap addr = some obj) :
    populateRelationshipEntry cfg s addr rc (name, { data := RelData.many l }) =
      .ok { s with heap := alistSet s.heap addr { obj with fields := alistSet obj.fields (camel cfg name) (.refs (l.filterMap (fun rr => alistGet relTypeRecords rr.id))) } } :=
  populateRelationshipEntry_hasMany cfg s addr rc name l rels rel relType
    relTypeRecords obj hr hrel hrt hmt hbk hobj

/-- C5 witness: the article's `comments` wire entry lists comments `"5"`
and `"12"`; `"12"` is not materialized, so the assigned array holds only
the record of `"5"`, and no error is raised. -/
theorem c5_hasMany_unresolved_filtered_witness :
    populateRelationshipEntry articlesConfig articlesStore 0 2
        ("comments", { data := RelData.many [{ id := "5", type := "comment" },
          { id := "12", type := "comment" }] }) = .ok c5Store ∧
    (∃ obj, alistGet c5Store.heap 0 = some obj ∧
      alistGet obj.fields "comments" = some (.refs [1])) := by
  have h := c5_hasMany_unresolved_filtered articlesConfig articlesStore 0 2 "comments"
    [{ id := "5", type := "comment" }, { id := "12", type := "comment" }] _ _ "comment" _ _
    rfl rfl rfl rfl rfl rfl
  constructor
  · rw [h]; rfl
  · exact ⟨_, rfl, rfl⟩

/-- C6: when `included` is omitted, `resourcesToRecords` is exactly the
main materialize pass — the link pass does not run.  Every field of every
record after the call either held the same value before the call or is a
plain attribute value (`HeapExtends`), and every field a record held
before is still there unless an attribute with the same name overwrote it
(`FieldsPreserved`): relationship references populated by an earlier fetch
are never cleared or rewired, only attribute fields are overwritten. -/
theorem c6_no_included_skips_link_pass (cfg : Config) (s : Store) (ctor : CtorId)
    (resources : List JsonApiResource) (records : List Nat) (s' : Store)
    (h : resourcesToRecords cfg s ctor resources Option.none = .ok (records, s'))
    (hfresh : HeapFresh s) :
    HeapExtends s s' ∧ FieldsPreserved s s' := by
  rw [resourcesToRecords_none] at h
  exact ⟨createRecordsWith_heapExtends cfg ctor resources s records s' h,
    (createRecordsWith_fresh_preserved cfg ctor resources s records s' h hfresh).2⟩

/-- C6 witness: re-materializing the record of `w1Store` with `{t: "y"}`
and no included payload only overwrites the attribute field. -/
theorem c6_no_included_skips_link_pass_witness :
    resourcesToRecords oneModelConfig w1Store 0
        [{ id := "1", type := "a", attributes := some [("t", .str "y")],
           relationships := none }] Option.none = .ok ([0], c6Store) ∧
    HeapExtends w1Store c6Store ∧ FieldsPreserved w1Store c6Store := by
  have hfresh : HeapFresh w1Store := by
    intro addr ha
    by_cases h0 : (0 : Nat) = addr
    · rw [← h0]
      decide
    · simp [w1Store, alistGet, h0, Option.isSome] at ha
  refine ⟨rfl, ?_⟩
  exact c6_no_included_skips_link_pass oneModelConfig w1Store 0
    [{ id := "1", type := "a", attributes := some [("t", .str "y")], relationships := none }]
    [0] c6Store rfl hfresh

/-- C7: cache-first read — when `(type, id)` is already identity-mapped,
`findRecord` returns exactly that record, leaves the store untouched, and
does not consult the fetcher: the result is the same for every document
the fetcher could have returned, and the fetched flag is `false`. -/
theorem c7_cache_first_read (cfg : Config) (s : Store) (ctor : CtorId) (id : String)
    (t : String) (bucket : AList String Nat) (a : Nat)
    (ht : getModelType cfg ctor = .ok t)
    (hbk : alistGet s.recordsByType t = some bucket)
    (ha : alistGet bucket id = some a) :
    ∀ doc : JsonApiDocument, findRecord cfg s ctor id doc = .ok (a, s, false) :=
  fun doc => findRecord_hit cfg s ctor id doc t bucket a ht hbk ha

/-- C7 witness: `findRecord` on the already-resolved `(a, "1")` returns
the cached instance even for a document with no usable data. -/
theorem c7_cache_first_read_witness :
    findRecord oneModelConfig w1Store 0 "1" garbageDoc = .ok (0, w1Store, false) :=
  c7_cache_first_read oneModelConfig w1Store 0 "1" "a" _ 0 rfl rfl rfl garbageDoc

/-- C8: `unloadAll` empties every per-type bucket (the buckets themselves
survive), so no `(type, id)` stays identity-mapped; a subsequent
`findRecord` for a previously-resolved id therefore cannot take the cache
branch — whenever it succeeds, the fetcher was consulted. -/
theorem c8_unload_clears_everything :
    (∀ (s : Store) (t : String) (b : AList String Nat),
        alistGet (unloadAll s).recordsByType t = some b → b = []) ∧
    (∀ (s : Store) (t i : String), lookupRec (unloadAll s) t i = none) ∧
    (∀ (cfg : Config) (s : Store) (ctor : CtorId) (id : String) (doc : JsonApiDocument)
        (t : String) (a0 a : Nat) (s' : Store) (f : Bool),
        getModelType cfg ctor = .ok t →
        lookupRec s t id = some a0 →
        findRecord cfg (unloadAll s) ctor id doc = .ok (a, s', f) →
        f = true) := by
  refine ⟨?_, fun s t i => unloadAll_lookupRec s t i, ?_⟩
  · intro s t b hb
    rw [unloadAll_buckets] at hb
    cases hg : alistGet s.recordsByType t with
    | none => rw [hg] at hb; exact Option.noConfusion hb
    | some b0 =>
      rw [hg] at hb
      exact ((Option.some_injective _ hb)).symm
  · intro cfg s ctor id doc t a0 a s' f ht hb0 hfr
    obtain ⟨t2, bucket2, ht2, hbk2, hcase⟩ := findRecord_ok cfg (unloadAll s) ctor id doc a s' f hfr
    rw [ht] at ht2
    obtain rfl : t = t2 := (Except.ok.injEq _ _).mp ht2
    cases hB : alistGet s.recordsByType t with
    | none =>
      simp only [lookupRec, hB, Option.none_bind] at hb0
      exact Option.noConfusion hb0
    | some B =>
      rw [unloadAll_buckets, hB] at hbk2
      obtain rfl : ([] : AList String Nat) = bucket2 := Option.some_injective _ hbk2
      rcases hcase with ⟨hf, _, hget⟩ | ⟨hf, _⟩
      · exact Option.noConfusion hget
      · exact hf

/-- C8 witness: after `unloadAll`, the previously-resolved `(a, "1")` is
gone from the identity map, and re-finding it runs the fetch branch and
allocates a fresh instance. -/
theorem c8_unload_clears_everything_witness :
    lookupRec (unloadAll w1Store) "a" "1" = none ∧
    findRecord oneModelConfig (unloadAll w1Store) 0 "1" w1Doc = .ok (1, c8Store, true) := by
  refine ⟨c8_unload_clears_everything.2.1 w1Store "a" "1", ?_⟩
  have hf := c8_unload_clears_everything.2.2 oneModelConfig w1Store 0 "1" w1Doc
    "a" 0 1 c8Store true rfl rfl rfl
  rfl

/-- C1: the identity-map invariant over `findRecord`/`findAll` call
sequences.  (i) The identity map holds at most one record per
`(type, id)`.  (ii) Across any sequence of calls, a `(type, id)` binding,
once present, never changes: the identity-mapped instance is stable.
(iii) `findRecord` returns exactly the identity-mapped instance of its
`(type, id)`, and (iv) every record `findAll` returns is the
identity-mapped instance of its resource's id — so with (ii), all returns
for the same `(type, id)` are the same instance.  (v)–(vi) Starting from a
fresh store, every relationship reference wired into any record points at
a currently identity-mapped record, provided each single-resource fetch
returns a document whose primary resource carries the requested id (the
`opWf` fetcher contract). -/
theorem c1_identity_map_invariant :
    (∀ (s : Store) (t i : String) (a b : Nat),
        lookupRec s t i = some a → lookupRec s t i = some b → a = b) ∧
    (∀ (cfg : Config) (ops : List Op) (s s' : Store),
        runOps cfg s ops = .ok s' → BindingMono s s') ∧
    (∀ (cfg : Config) (s : Store) (c : CtorId) (i : String) (d : JsonApiDocument)
        (a : Nat) (s' : Store) (f : Bool) (t : String),
        findRecord cfg s c i d = .ok (a, s', f) → getModelType cfg c = .ok t →
        lookupRec s' t i = some a) ∧
    (∀ (cfg : Config) (s : Store) (c : CtorId) (d : JsonApiDocument)
        (recs : List Nat) (s' : Store) (t : String) (l : List JsonApiResource)
        (n : Nat) (r : JsonApiResource),
        findAll cfg s c d = .ok (recs, s') → getModelType cfg c = .ok t →
        d.data = DocData.many l → l.get? n = some r →
        ∃ a, recs.get? n = some a ∧ lookupRec s' t r.id = some a) ∧
    (∀ cfg : Config, RefsBound (initStore cfg)) ∧
    (∀ (cfg : Config) (ops : List Op) (s s' : Store),
        (∀ op ∈ ops, opWf op) → runOps cfg s ops = .ok s' →
        RefsBound s → RefsBound s') := by
  refine ⟨?_, ?_, ?_, ?_, ?_, ?_⟩
  · intro s t i a b h1 h2
    rw [h1] at h2
    exact Option.some_injective _ h2
  · exact fun cfg ops s s' h => runOps_bindingMono cfg ops s s' h
  · exact fun cfg s c i d a s' f t h ht => findRecord_returns_binding cfg s c i d a s' f t h ht
  · intro cfg s c d recs s' t l n r h ht hd hn
    obtain ⟨t0, l0, ht0, hd0, hres⟩ := findAll_ok cfg s c d recs s' h
    rw [ht] at ht0
    obtain rfl : t = t0 := (Except.ok.injEq _ _).mp ht0
    rw [hd] at hd0
    obtain rfl : l = l0 := (DocData.many.injEq _ _).mp hd0
    exact resourcesToRecords_result_binding cfg s c t ht l d.included recs s' hres n r hn
  · exact refsBound_initStore
  · exact fun cfg ops s s' hwf h hrb => runOps_refsBound cfg ops s s' hwf h hrb

/-- C1 witness: two consecutive `findRecord` calls for the same `(a, "1")`
leave a single stable binding; the first call's return is the
identity-mapped instance and all wired references (vacuously here) are
identity-mapped. -/
theorem c1_identity_map_invariant_witness :
    runOps oneModelConfig (initStore oneModelConfig)
        [Op.findRecordOp 0 "1" w1Doc, Op.findRecordOp 0 "1" w1Doc] = .ok w1Store ∧
    findRecord oneModelConfig (initStore oneModelConfig) 0 "1" w1Doc = .ok (0, w1Store, true) ∧
    lookupRec w1Store "a" "1" = some 0 ∧
    RefsBound w1Store := by
  have hwf : ∀ op ∈ [Op.findRecordOp 0 "1" w1Doc, Op.findRecordOp 0 "1" w1Doc], opWf op := by
    intro op hop
    have hop1 : op = Op.findRecordOp 0 "1" w1Doc := by
      rcases List.mem_cons.mp hop with h | h
      · exact h
      · rcases List.mem_cons.mp h with h2 | h2
        · exact h2
        · exact absurd h2 (List.not_mem_nil op)
    subst hop1
    intro r hr
    obtain rfl : w1Resource = r := by
      have h1 : DocData.one w1Resource = DocData.one r := hr
      exact (DocData.one.injEq _ _).mp h1
    rfl
  refine ⟨rfl, rfl, ?_, ?_⟩
  · exact c1_identity_map_invariant.2.2.1 oneModelConfig (initStore oneModelConfig)
      0 "1" w1Doc 0 w1Store true "a" rfl rfl
  · exact c1_identity_map_invariant.2.2.2.2.2 oneModelConfig
      [Op.findRecordOp 0 "1" w1Doc, Op.findRecordOp 0 "1" w1Doc]
      (initStore oneModelConfig) w1Store hwf rfl
      (c1_identity_map_invariant.2.2.2.2.1 oneModelConfig)

/-- C9 counterexample: `sharedResource` (wire type `"b"`) appears both in
`included` and in `resources`, while the caller materializes primaries
under ctor 0 (registered type `"a"`).  The included occurrence resolves
the model from the wire type and creates record 0 at `("b", "1")`; the
primary occurrence does NOT resolve from the wire type — it uses the
supplied ctor — and creates a second record 1 at `("a", "1")`.  Two
records are created for the two occurrences of one resource, refuting the
claim that both occurrences always resolve to a single identity-mapped
instance created under the model of the resource's own wire type. -/
theorem c9_materialize_pass_counterexample :
    resourcesToRecords twoModelConfig (initStore twoModelConfig) 0
        [sharedResource] (some [sharedResource]) = .ok ([1], c9Store) ∧
    lookupRec c9Store "b" "1" = some 0 ∧
    lookupRec c9Store "a" "1" = some 1 ∧
    c9Store.nextAlloc = 2 :=
  ⟨rfl, rfl, rfl, rfl⟩

/-- C9 (amended): included resources are materialized under the model
resolved from their own wire type; primary resources are materialized
under the caller-supplied ctor.  Each primary resource's returned record
is the identity-map binding of `(type-of-ctor, id)` in the final store,
and equals whatever record the included pass had already materialized
there — in particular, when a resource appears in both `included` and
`resources` and its wire type matches the ctor's registered type (as in
well-formed documents), both occurrences resolve to the single
identity-mapped instance and no second record is created. -/
theorem c9_materialize_pass_amended (cfg : Config) (s : Store) (ctor : CtorId) (t : String)
    (resources incl : List JsonApiResource) (records : List Nat) (s' s1 : Store)
    (n : Nat) (r : JsonApiResource)
    (ht : getModelType cfg ctor = .ok t)
    (h : resourcesToRecords cfg s ctor resources (some incl) = .ok (records, s'))
    (h1 : createIncludedRecords cfg s incl = .ok s1)
    (hn : resources.get? n = some r) :
    ∃ a, records.get? n = some a ∧ lookupRec s' t r.id = some a ∧
      ∀ a0, lookupRec s1 t r.id = some a0 → a = a0 := by
  obtain ⟨s1', s2, sa, h1', h2, h3, h4⟩ := resourcesToRecords_some_ok _ _ _ _ _ _ _ h
  rw [h1] at h1'
  obtain rfl : s1 = s1' := (Except.ok.injEq _ _).mp h1'
  obtain ⟨a, haddr, hbind, hstab⟩ :=
    createRecordsWith_elem cfg ctor t ht resources s1 records s2 h2 n r hn
  refine ⟨a, haddr, ?_, hstab⟩
  rw [lookupRec_congr ((populateAll_props cfg incl sa s' h4).1.trans
    (populateAll_props cfg resources s2 sa h3).1) t r.id]
  exact hbind

/-- C9 witness: a well-formed resource appearing in both `included` and
`resources` materializes once — the primary return is the very record the
included pass created. -/
theorem c9_materialize_pass_amended_witness :
    resourcesToRecords oneModelConfig (initStore oneModelConfig) 0
        [c9GoodResource] (some [c9GoodResource]) = .ok ([0], c9GoodStore) ∧
    createIncludedRecords oneModelConfig (initStore oneModelConfig) [c9GoodResource] =
      .ok c9GoodStore ∧
    lookupRec c9GoodStore "a" "1" = some 0 := by
  refine ⟨rfl, rfl, ?_⟩
  obtain ⟨a, ha, hb, hs⟩ := c9_materialize_pass_amended oneModelConfig
    (initStore oneModelConfig) 0 "a" [c9GoodResource] [c9GoodResource] [0]
    c9GoodStore c9GoodStore 0 c9GoodResource rfl rfl rfl rfl
  obtain rfl : (0 : Nat) = a := by simpa using ha
  exact hb

/-- C10: identity preservation extends to `findRelated`.  Belongs-to: when
the fetched related resource's `(target type, id)` is already
identity-mapped, no allocation happens, the existing instance is mutated
in place with the fetched attributes, and that same instance is assigned
into `record[name]`.  Has-many: every fetched related resource that was
already identity-mapped before the call keeps its instance, which appears
at its document-order position in the array assigned into `record[name]`
and is still the identity-map binding afterwards. -/
theorem c10_findRelated_identity :
    (∀ (cfg : Config) (s : Store) (addr : Nat) (name : String) (doc : JsonApiDocument)
        (s' : Store) (obj : ModelObj) (rels : AList String Relationship)
        (rel : Relationship) (rt : String) (B : AList String Nat)
        (rr : JsonApiResource) (a : Nat) (relObj : ModelObj),
        findRelated cfg s addr name doc = .ok s' →
        alistGet s.heap addr = some obj →
        alistGet (relsRegistry cfg) obj.ctor = some rels →
        alistGet rels name = some rel →
        rel.type = RelationshipType.belongsTo →
        getModelType cfg rel.ctor = .ok rt →
        doc.data = DocData.one rr →
        alistGet s.recordsByType rt = some B →
        alistGet B rr.id = some a →
        alistGet s.heap a = some relObj →
        a ≠ addr →
        s'.nextAlloc = s.nextAlloc ∧
        lookupRec s' rt rr.id = some a ∧
        (∃ obj2, alistGet s'.heap addr = some obj2 ∧
          alistGet obj2.fields name = some (.ref a)) ∧
        (∃ relObj2, alistGet s'.heap a = some relObj2 ∧
          relObj2.fields = applyPropsOpt cfg relObj.fields rr.attributes)) ∧
    (∀ (cfg : Config) (s : Store) (addr : Nat) (name : String) (doc : JsonApiDocument)
        (s' : Store) (obj : ModelObj) (rels : AList String Relationship)
        (rel : Relationship) (rt : String) (l : List JsonApiResource),
        findRelated cfg s addr name doc = .ok s' →
        alistGet s.heap addr = some obj →
        alistGet (relsRegistry cfg) obj.ctor = some rels →
        alistGet rels name = some rel →
        rel.type = RelationshipType.hasMany →
        getModelType cfg rel.ctor = .ok rt →
        doc.data = DocData.many l →
        ∃ addrs, addrs.length = l.length ∧
          (∃ obj2, alistGet s'.heap addr = some obj2 ∧
            alistGet obj2.fields name = some (.refs addrs)) ∧
          ∀ (n : Nat) (rr : JsonApiResource) (a0 : Nat), l.get? n = some rr →
            lookupRec s rt rr.id = some a0 →
            addrs.get? n = some a0 ∧ lookupRec s' rt rr.id = some a0) :=
  ⟨fun cfg s addr name doc s' obj rels rel rt B rr a relObj
      hf hobj hrels hrel hrt hmt hd hbk hbind hrelObj haneq =>
    findRelated_belongsTo_inv cfg s addr name doc s' obj rels rel rt B rr a relObj
      hf hobj hrels hrel hrt hmt hd hbk hbind hrelObj haneq,
   fun cfg s addr name doc s' obj rels rel rt l hf hobj hrels hrel hrt hmt hd =>
    findRelated_hasMany_inv cfg s addr name doc s' obj rels rel rt l
      hf hobj hrels hrel hrt hmt hd⟩

/-- C10 witness: on the articles fixture, `findRelated(article, "author")`
reuses and assigns the existing person instance, and
`findRelated(article, "comments")` keeps comment `"5"`'s instance at
position 0 of the assigned array. -/
theorem c10_findRelated_identity_witness :
    findRelated articlesConfig articlesStore 0 "author"
        { data := DocData.one personResource, included := none } = .ok c10aStore ∧
    c10aStore.nextAlloc = articlesStore.nextAlloc ∧
    lookupRec c10aStore "person" "9" = some 2 ∧
    (∃ obj2, alistGet c10aStore.heap 0 = some obj2 ∧
      alistGet obj2.fields "author" = some (.ref 2)) ∧
    findRelated articlesConfig articlesStore 0 "comments"
        { data := DocData.many [commentResource1, commentResource2], included := none } =
      .ok c10bStore ∧
    lookupRec c10bStore "comment" "5" = some 1 := by
  have hb := c10_findRelated_identity.1 articlesConfig articlesStore 0 "author"
    { data := DocData.one personResource, included := none } c10aStore
    { ctor := 2, fields := [("id", .val (.str "1"))] } _ _ "person" _ personResource 2 _
    rfl rfl rfl rfl rfl rfl rfl rfl rfl rfl (by decide)
  obtain ⟨addrs, hlen, hfield, hpos⟩ := c10_findRelated_identity.2 articlesConfig
    articlesStore 0 "comments"
    { data := DocData.many [commentResource1, commentResource2], included := none } c10bStore
    { ctor := 2, fields := [("id", .val (.str "1"))] } _ _ "comment"
    [commentResource1, commentResource2]
    rfl rfl rfl rfl rfl rfl rfl
  exact ⟨rfl, hb.1, hb.2.1, hb.2.2.1, rfl, (hpos 0 commentResource1 1 rfl rfl).2⟩

end PiniaJsonApi
